import Mathlib

/-!
# Verification of go-homebank-csv

Shallow embedding of the go-homebank-csv conversion framework:
the format registry and guesser (`parser.go`), the five format-specific
parsers (moneywallet, barclaycard, volksbank, comdirect, dkb), the
comdirect label-marker splitter, the settings validation
(`settings.go`) and the batch orchestrator (`batchconvert.go`).

Modelling conventions:

* Text is `Str := List Char`.  Go byte indices become character
  indices; the comdirect ISO-8859-1 decoding step is modelled as the
  identity on the decoded text, which is faithful for the field counts
  and ASCII header comparisons the parsers perform.
* Go's `encoding/csv` reader is modelled for quote-free content:
  blank lines are skipped and each remaining line is split at the
  delimiter.  With `FieldsPerRecord = 0` (the default) every record
  must have the same number of fields as the first one, otherwise
  `ReadAll` fails; with `FieldsPerRecord = -1` records may vary.
* `strconv.ParseFloat` is modelled as exact decimal parsing into a
  canonical mantissa-times-power-of-ten value (optional sign, digits
  with at most one decimal point, optional exponent); the special
  spellings `inf`/`nan` and hexadecimal floats are treated as parse
  failures.  Monetary amounts therefore become exact decimals, which
  agrees with the `float64` semantics on the only operations the
  program performs on them (comparison with zero and sign tests).
* `time.Parse` with the layouts used by the program is modelled with
  fixed-width numeric fields and calendar validation, following the
  stdlib behaviour for those layouts.
* The filesystem is an explicit structure of directories and files;
  writes always succeed; `os.Stat` succeeds on paths that exist as a
  file or a directory.
* Go map iteration order is randomized per run.  Every place the
  source iterates `sourceFormats` to build a list (`GetSourceFormats`)
  is therefore parameterized by an `order : List SourceFormat` that is
  assumed (or, in closed statements, checked) to be a permutation of
  the map's key set.
-/

abbrev Str := List Char

namespace GoStr

/-- Split a line at the delimiter character (model of a quote-free CSV
field split). -/
def splitOnChar (c : Char) : Str → List Str
  | [] => [[]]
  | x :: xs =>
    let rest := splitOnChar c xs
    if x = c then [] :: rest
    else match rest with
      | [] => [[x]]
      | r :: rs => (x :: r) :: rs

/-- Model of `strings.Index`: index of the first occurrence of
`pat` in `s`, or `none`. -/
def strIndex (s pat : Str) : Option Nat :=
  match s with
  | [] => if pat = [] then some 0 else none
  | _ :: xs =>
    if pat.isPrefixOf s then some 0
    else (strIndex xs pat).map (· + 1)

/-- Characters treated as white space by `strings.TrimSpace`
(restricted to the ASCII space class). -/
def isSpaceChar (c : Char) : Bool :=
  c = ' ' || c = '\t' || c = '\n' || c = '\r' || c = '\x0b' || c = '\x0c'

def trimLeftSpace (s : Str) : Str := s.dropWhile isSpaceChar

def trimRightSpace (s : Str) : Str := (s.reverse.dropWhile isSpaceChar).reverse

/-- Model of `strings.TrimSpace`. -/
def trimSpace (s : Str) : Str := trimRightSpace (trimLeftSpace s)

/-- Model of `strings.TrimRight` with a cutset. -/
def trimRightCutset (s : Str) (cutset : List Char) : Str :=
  (s.reverse.dropWhile (fun c => cutset.contains c)).reverse

/-- Model of `strings.TrimSuffix`. -/
def trimSuffix (s suffix : Str) : Str :=
  if suffix.isSuffixOf s then s.take (s.length - suffix.length) else s

/-- Model of `strings.Replace(s, old, new, -1)` / `strings.ReplaceAll`
for a single-character `old`/`new` pair (the only shape the parsers
use, e.g. `","` to `"."`). -/
def replaceAllChar (s : Str) (a b : Char) : Str :=
  s.map (fun c => if c = a then b else c)

/-- Model of `strings.Replace(s, old, "", -1)` removing every
occurrence of a single character (used to strip thousands dots). -/
def removeAllChar (s : Str) (a : Char) : Str :=
  s.filter (fun c => c ≠ a)

/-- Model of `strings.Fields`: split around runs of white space. -/
def fields (s : Str) : List Str :=
  let rec go : Str → Str → List Str
    | [], acc => if acc = [] then [] else [acc.reverse]
    | c :: cs, acc =>
      if isSpaceChar c then
        if acc = [] then go cs [] else acc.reverse :: go cs []
      else go cs (c :: acc)
  go s []

/-- Model of `strings.Join` with a separator string. -/
def joinWith (sep : Str) : List Str → Str
  | [] => []
  | [x] => x
  | x :: xs => x ++ sep ++ joinWith sep xs

/-- Lexicographic comparison on character values, the order used by
`sort.Strings`. -/
def strLeB : Str → Str → Bool
  | [], _ => true
  | _ :: _, [] => false
  | a :: as, b :: bs => if a = b then strLeB as bs else decide (a < b)

def insertSortedStr (x : Str) : List Str → List Str
  | [] => [x]
  | y :: ys => if strLeB x y then x :: y :: ys else y :: insertSortedStr x ys

/-- Model of `sort.Strings` (the algorithm differs, the sorted result
is the same). -/
def sortStrs (l : List Str) : List Str := l.foldr insertSortedStr []

end GoStr

namespace GoPath

open GoStr

/-- `filepath.Join(dir, base)` for an already-clean `dir` and a
separator-free `base` reduces to concatenation with `/`. -/
def joinPath (dir base : Str) : Str := dir ++ ['/'] ++ base

/-- Model of `filepath.Base` (for paths that do not end in `/`). -/
def pathBase (s : Str) : Str :=
  (s.reverse.takeWhile (fun c => c ≠ '/')).reverse

/-- Model of `filepath.Ext`: the suffix starting at the final dot of
the final path element, empty if there is none. -/
def pathExt (s : Str) : Str :=
  let rev := s.reverse
  let beforeSep := rev.takeWhile (fun c => c ≠ '/')
  match strIndex beforeSep ['.'] with
  | none => []
  | some _ =>
    ('.' :: (beforeSep.takeWhile (fun c => c ≠ '.'))).reverse

end GoPath

namespace GoNum

/-- Digit characters to values. -/
def digitVal? (c : Char) : Option Nat :=
  if '0' ≤ c ∧ c ≤ '9' then some (c.toNat - '0'.toNat) else none

def isDigitChar (c : Char) : Bool := decide ('0' ≤ c) && decide (c ≤ '9')

/-- Value of a digit string (the caller checks digit-ness). -/
def digitsToNat (s : Str) : Nat :=
  s.foldl (fun acc c => acc * 10 + (c.toNat - '0'.toNat)) 0

/-- Exact decimal number `m * 10^e` in canonical form (`m` is not a
multiple of 10 unless the value is zero, in which case `m = 0` and
`e = 0`).  This represents the monetary values the program stores in
`float64` fields; the only operations the program performs on them are
comparison with zero and sign tests, on which the exact-decimal model
and the float model agree for all in-range bank amounts. -/
structure Dec where
  m : Int
  e : Int
  deriving DecidableEq, Repr

def decZero : Dec := ⟨0, 0⟩

/-- Strip factors of 10 from the mantissa; fuel bounds the number of
strippable digits. -/
def normDecAux : Nat → Int → Int → Dec
  | 0, m, e => ⟨m, e⟩
  | fuel + 1, m, e =>
    if m = 0 then ⟨0, 0⟩
    else if m % 10 = 0 then normDecAux fuel (m / 10) (e + 1)
    else ⟨m, e⟩

def normDec (m e : Int) : Dec := normDecAux m.natAbs m e

/-- The value is negative (`m * 10^e < 0` iff `m < 0`). -/
def Dec.isNegB (d : Dec) : Bool := decide (d.m < 0)

/-- Model of `strconv.ParseFloat` for plain decimal notation:
optional sign, a mantissa of digits containing at most one `.` and at
least one digit, and an optional decimal exponent.  `inf`, `nan`,
hexadecimal floats and underscores are modelled as parse failures.
The result is the exact decimal value of the literal. -/
def parseGoFloat (s : Str) : Option Dec :=
  let (sign, rest) :=
    match s with
    | '+' :: r => ((1 : Int), r)
    | '-' :: r => ((-1 : Int), r)
    | r => ((1 : Int), r)
  let intPart := rest.takeWhile isDigitChar
  let afterInt := rest.drop intPart.length
  let (fracPart, afterMant) :=
    match afterInt with
    | '.' :: r => (r.takeWhile isDigitChar, (r.drop (r.takeWhile isDigitChar).length))
    | r => (([] : Str), r)
  if intPart.length + fracPart.length = 0 then none
  else
    let mantissa : Int := sign * (digitsToNat (intPart ++ fracPart) : Int)
    let baseExp : Int := -(fracPart.length : Int)
    match afterMant with
    | [] => some (normDec mantissa baseExp)
    | e :: r =>
      if e = 'e' ∨ e = 'E' then
        let (esign, edigits) :=
          match r with
          | '+' :: r2 => ((1 : Int), r2)
          | '-' :: r2 => ((-1 : Int), r2)
          | r2 => ((1 : Int), r2)
        if edigits ≠ [] ∧ edigits.all isDigitChar then
          some (normDec mantissa (baseExp + esign * (digitsToNat edigits : Int)))
        else none
      else none

/-- Calendar structure produced by the date layouts the program uses. -/
structure Date where
  year : Nat
  month : Nat
  day : Nat
  deriving DecidableEq, Repr

def isLeapYear (y : Nat) : Bool :=
  (y % 4 = 0 && y % 100 ≠ 0) || y % 400 = 0

def daysInMonth (y m : Nat) : Nat :=
  if m = 2 then (if isLeapYear y then 29 else 28)
  else if m = 4 ∨ m = 6 ∨ m = 9 ∨ m = 11 then 30
  else 31

/-- Exactly `n` digits from the front of `s`, with the remainder. -/
def takeDigits (n : Nat) (s : Str) : Option (Nat × Str) :=
  let pre := s.take n
  if pre.length = n ∧ pre.all isDigitChar then some (digitsToNat pre, s.drop n)
  else none

def expectChar (c : Char) (s : Str) : Option Str :=
  match s with
  | x :: xs => if x = c then some xs else none
  | [] => none

def checkDate (y m d : Nat) : Option Date :=
  if 1 ≤ m ∧ m ≤ 12 ∧ 1 ≤ d ∧ d ≤ daysInMonth y m then some ⟨y, m, d⟩ else none

/-- Model of `time.Parse("02.01.2006", s)`: strict two-digit day and
month, four-digit year, with calendar validation. -/
def parseDateDDMMYYYY (s : Str) : Option Date := do
  let (d, s) ← takeDigits 2 s
  let s ← expectChar '.' s
  let (m, s) ← takeDigits 2 s
  let s ← expectChar '.' s
  let (y, s) ← takeDigits 4 s
  if s = [] then checkDate y m d else none

/-- Two-digit years as `time.Parse` maps them: 69–99 to 19xx,
otherwise 20xx. -/
def expandYear2 (yy : Nat) : Nat :=
  if 69 ≤ yy then 1900 + yy else 2000 + yy

/-- Model of `time.Parse("02.01.06", s)`. -/
def parseDateDDMMYY (s : Str) : Option Date := do
  let (d, s) ← takeDigits 2 s
  let s ← expectChar '.' s
  let (m, s) ← takeDigits 2 s
  let s ← expectChar '.' s
  let (yy, s) ← takeDigits 2 s
  if s = [] then checkDate (expandYear2 yy) m d else none

/-- Model of `time.Parse("2006-01-02 15:04:05", s)`; the time of day
is validated and discarded (the program only formats the date part). -/
def parseDateTimeMW (s : Str) : Option Date := do
  let (y, s) ← takeDigits 4 s
  let s ← expectChar '-' s
  let (m, s) ← takeDigits 2 s
  let s ← expectChar '-' s
  let (d, s) ← takeDigits 2 s
  let s ← expectChar ' ' s
  let (hh, s) ← takeDigits 2 s
  let s ← expectChar ':' s
  let (mi, s) ← takeDigits 2 s
  let s ← expectChar ':' s
  let (ss, s) ← takeDigits 2 s
  if s = [] ∧ hh < 24 ∧ mi < 60 ∧ ss < 60 then checkDate y m d else none

/-- Decimal digits of `n`, as characters. -/
def natToStr (n : Nat) : Str := (Nat.repr n).toList

/-- `n` zero-padded to `w` digits (layout `2006`/`01`/`02` output). -/
def padNat (w n : Nat) : Str :=
  let d := natToStr n
  List.replicate (w - d.length) '0' ++ d

/-- Model of `Time.Format("2006-01-02")`. -/
def formatDateISO (d : Date) : Str :=
  padNat 4 d.year ++ ['-'] ++ padNat 2 d.month ++ ['-'] ++ padNat 2 d.day

def intToStr (i : Int) : Str :=
  if i < 0 then '-' :: natToStr i.natAbs else natToStr i.natAbs

/-- The value scaled by 10⁶ and rounded to the nearest integer (ties
away from zero). -/
def decScaled6 (d : Dec) : Int :=
  let e6 := d.e + 6
  if 0 ≤ e6 then d.m * (10 : Int) ^ e6.toNat
  else
    let k := (-e6).toNat
    let q : Nat := (d.m.natAbs + 5 * 10 ^ (k - 1)) / 10 ^ k
    if d.m < 0 then -(q : Int) else (q : Int)

/-- Model of `fmt.Sprintf("%f", x)`: fixed six fractional digits,
rounded to the nearest multiple of 10⁻⁶. -/
def formatAmount (d : Dec) : Str :=
  let scaled := decScaled6 d
  let sign : Str := if scaled < 0 then ['-'] else []
  let a := scaled.natAbs
  sign ++ natToStr (a / 1000000) ++ ['.'] ++ padNat 6 (a % 1000000)

end GoNum

namespace HomebankCsv

open GoStr GoPath GoNum

/-- Model of a file's content as the parsers see it: decoded text
lines for CSV input, spreadsheet rows for the excel input.  `xlsx`
holds `none` when the workbook has no sheet named `Sheet1`. -/
inductive FileData where
  | text (lines : List Str)
  | xlsx (sheet1 : Option (List (List Str)))
  deriving DecidableEq, Repr

/-- Model of `encoding/csv` `ReadAll` on quote-free content.
Blank lines are skipped.  When `variableLen` is false (Go's default
`FieldsPerRecord = 0`) every record must have as many fields as the
first one. -/
def csvReadAll (comma : Char) (variableLen : Bool) (lines : List Str) :
    Except Unit (List (List Str)) :=
  let records := (lines.filter (fun l => l ≠ [])).map (splitOnChar comma)
  if variableLen then .ok records
  else
    match records with
    | [] => .ok []
    | r :: rs =>
      if rs.all (fun x => x.length = r.length) then .ok (r :: rs) else .error ()

/-- `ParserErrorType` of `parser.go`. -/
inductive ParserErrorType where
  | IOError
  | HeaderError
  | DataParsingError
  deriving DecidableEq, Repr

/-- `ParserError` of `parser.go`: kind, optional 1-based line number
(0 meaning not applicable), optional field name. -/
structure ParserError where
  errorType : ParserErrorType
  line : Nat := 0
  field : Str := []
  deriving DecidableEq, Repr

/-- `homebankRecord` of `parser.go`. -/
structure HomebankRecord where
  date : Str
  payment : Int
  info : Str
  payee : Str
  memo : Str
  amount : Dec
  category : Str
  tags : Str
  deriving DecidableEq, Repr

def emptyHomebankRecord : HomebankRecord :=
  { date := [], payment := 0, info := [], payee := [], memo := [],
    amount := decZero, category := [], tags := [] }

/-- `writeHomeBankRecords` of `parser.go`: the text content written to
the output file (header line plus one rendered line per record). -/
def writeHomeBankRecordsContent (records : List HomebankRecord) : List Str :=
  "date;payment;info;payee;memo;amount;category;tags".toList ::
    records.map (fun rec =>
      rec.date ++ [';'] ++ intToStr rec.payment ++ [';'] ++ rec.info ++ [';'] ++
      rec.payee ++ [';'] ++ rec.memo ++ [';'] ++ formatAmount rec.amount ++ [';'] ++
      rec.category ++ [';'] ++ rec.tags)

/-! ## comdirect label-marker splitting (`comdirect.go`) -/

/-- The Go map `startPositions` is an association list with
insert-or-overwrite semantics. -/
def insertPos (m : List (Nat × Str)) (p : Nat) (s : Str) : List (Nat × Str) :=
  match m with
  | [] => [(p, s)]
  | (q, t) :: rest => if q = p then (p, s) :: rest else (q, t) :: insertPos rest p s

def lookupPos (m : List (Nat × Str)) (p : Nat) : Option Str :=
  match m with
  | [] => none
  | (q, t) :: rest => if q = p then some t else lookupPos rest p

/-- The first loop of `splitComdirectBuchungstext`: find each field
marker `s ++ ":"` in the text and record `pos ↦ s` in the map. -/
def buildStartPositions (buchungstext : Str) : List Str → List (Nat × Str) → List (Nat × Str)
  | [], m => m
  | s :: rest, m =>
    match strIndex buchungstext (s ++ [':']) with
    | none => buildStartPositions buchungstext rest m
    | some pos => buildStartPositions buchungstext rest (insertPos m pos s)

/-- Model of `sort.Ints` applied to the collected map keys (the
algorithm differs, the sorted result is the same). -/
def sortNats (l : List Nat) : List Nat := List.insertionSort (· ≤ ·) l

/-- The extraction loop of `splitComdirectBuchungstext`: for each
start index (in sorted order) the value runs up to the next start
index or the end of the text, trimmed of white space. -/
def extractEntries (buchungstext : Str) (m : List (Nat × Str)) :
    List Nat → List (Str × Str)
  | [] => []
  | startIndex :: rest =>
    let fieldName := (lookupPos m startIndex).getD []
    let endIndex := match rest with
      | [] => buchungstext.length
      | next :: _ => next
    let value := (buchungstext.take endIndex).drop (startIndex + fieldName.length + 1)
    (fieldName, trimSpace value) :: extractEntries buchungstext m rest

/-- `splitComdirectBuchungstext` of `comdirect.go`.  The result map is
represented as an association list ordered by marker position. -/
def splitComdirectBuchungstext (fieldList : List Str) (buchungstext : Str) :
    List (Str × Str) :=
  let startPositions := buildStartPositions buchungstext fieldList []
  if startPositions = [] then []
  else
    let sortedStartPositions := sortNats (startPositions.map Prod.fst)
    extractEntries buchungstext startPositions sortedStartPositions

/-- Lookup in the result map of `splitComdirectBuchungstext`. -/
def lookupField (m : List (Str × Str)) (k : Str) : Option Str :=
  match m with
  | [] => none
  | (q, v) :: rest => if q = k then some v else lookupField rest k

/-- `getFirstNWords` of `comdirect.go`. -/
def getFirstNWords (n : Nat) (s : Str) : Str :=
  if n = 0 then []
  else
    let split := GoStr.fields s
    if split.length < n then s else joinWith [' '] (split.take n)

end HomebankCsv

namespace HomebankCsv

open GoStr GoPath GoNum

/-! ## DKB parser (`dkb.go`, general giro format with duplicated
`Zahlungspflichtige*r` columns) -/

structure DkbRecord where
  buchungsdatum : Date
  wertstellung : Date
  status : Str
  zahlungspflichtiger1 : Str
  zahlungspflichtiger2 : Str
  verwendungszweck : Str
  umsatztyp : Str
  iban : Str
  betrag_eur : Dec
  glaeubigerId : Str
  mandatsreferenz : Str
  kundenreferenz : Str
  deriving DecidableEq, Repr

/-- `isValidDkbHeader` of `dkb.go`. -/
def isValidDkbHeader (record : List Str) : Bool :=
  record = ["Buchungsdatum".toList, "Wertstellung".toList, "Status".toList,
    "Zahlungspflichtige*r".toList, "Zahlungspflichtige*r".toList,
    "Verwendungszweck".toList, "Umsatztyp".toList, "IBAN".toList,
    "Betrag (€)".toList, "Gläubiger-ID".toList, "Mandatsreferenz".toList,
    "Kundenreferenz".toList]

/-- The data loop of `dkbParser.ParseFile` over `records[4:]`;
`lineNrOffset = 6`.  An early return keeps the entries accepted so
far in the parser. -/
def dkbParseRows : List (List Str) → Nat → List DkbRecord →
    List DkbRecord × Option ParserError
  | [], _, acc => (acc, none)
  | row :: rest, lineNr, acc =>
    if row.length ≠ 12 then dkbParseRows rest (lineNr + 1) acc
    else if row.getD 2 [] ≠ "Gebucht".toList then dkbParseRows rest (lineNr + 1) acc
    else match parseDateDDMMYY (row.getD 0 []) with
    | none => (acc, some ⟨.DataParsingError, 6 + lineNr, "Buchungsdatum".toList⟩)
    | some parsedBuchungsdatum =>
      match parseDateDDMMYY (row.getD 1 []) with
      | none => (acc, some ⟨.DataParsingError, 6 + lineNr, "Wertstellung".toList⟩)
      | some parsedWertstellung =>
        let amountString := replaceAllChar (removeAllChar (row.getD 8 []) '.') ',' '.'
        match parseGoFloat amountString with
        | none => (acc, some ⟨.DataParsingError, 6 + lineNr, "Betrag (€)".toList⟩)
        | some amount =>
          let dRecord : DkbRecord :=
            { buchungsdatum := parsedBuchungsdatum, wertstellung := parsedWertstellung,
              status := row.getD 2 [], zahlungspflichtiger1 := row.getD 3 [],
              zahlungspflichtiger2 := row.getD 4 [], verwendungszweck := row.getD 5 [],
              umsatztyp := row.getD 6 [], iban := row.getD 7 [], betrag_eur := amount,
              glaeubigerId := row.getD 9 [], mandatsreferenz := row.getD 10 [],
              kundenreferenz := row.getD 11 [] }
          if dRecord.umsatztyp = "Eingang".toList ∧ dRecord.betrag_eur = decZero ∧
              dRecord.zahlungspflichtiger1 = "DKB AG".toList ∧
              dRecord.zahlungspflichtiger2 = "DKB AG".toList then
            dkbParseRows rest (lineNr + 1) acc
          else dkbParseRows rest (lineNr + 1) (acc ++ [dRecord])

/-- `dkbParser.ParseFile`.  The prior entry list is the parser state
before the call; the first statement of the source resets it.
`headerInRecordNr = 3`. -/
def dkbParseFile (_prior : List DkbRecord) (fd : Option FileData) :
    List DkbRecord × Option ParserError :=
  match fd with
  | none => ([], some ⟨.IOError, 0, []⟩)
  | some (.xlsx _) => ([], some ⟨.IOError, 0, []⟩)
  | some (.text lines) =>
    match csvReadAll ';' true lines with
    | .error _ => ([], some ⟨.IOError, 0, []⟩)
    | .ok records =>
      if records.length < 3 + 1 then ([], some ⟨.HeaderError, 0, []⟩)
      else if ¬ isValidDkbHeader (records.getD 3 []) then
        ([], some ⟨.HeaderError, 3 + 2, []⟩)
      else dkbParseRows (records.drop 4) 0 []

/-- `dkbRecord.convertRecord`. -/
def dkbConvertRecord (d : DkbRecord) : HomebankRecord :=
  { emptyHomebankRecord with
    payment := 0
    date := formatDateISO d.buchungsdatum
    payee := if d.betrag_eur.isNegB then d.zahlungspflichtiger2 else []
    memo := d.verwendungszweck
    amount := d.betrag_eur }

/-- Content written by `dkbParser.ConvertToHomebank`. -/
def dkbConvertToHomebank (entries : List DkbRecord) : List Str :=
  writeHomeBankRecordsContent (entries.map dkbConvertRecord)

/-! ## Volksbank parser (`volksbank.go`) -/

structure VolksbankRecord where
  buchungstag : Date
  verwendungszweck : Str
  nameZahlungsbeteiligter : Str
  betrag : Dec
  deriving DecidableEq, Repr

/-- `isValidVolksbankHeader` of `volksbank.go`. -/
def isValidVolksbankHeader (record : List Str) : Bool :=
  record = ["Bezeichnung Auftragskonto".toList, "IBAN Auftragskonto".toList,
    "BIC Auftragskonto".toList, "Bankname Auftragskonto".toList,
    "Buchungstag".toList, "Valutadatum".toList, "Name Zahlungsbeteiligter".toList,
    "IBAN Zahlungsbeteiligter".toList, "BIC (SWIFT-Code) Zahlungsbeteiligter".toList,
    "Buchungstext".toList, "Verwendungszweck".toList, "Betrag".toList,
    "Waehrung".toList, "Saldo nach Buchung".toList, "Bemerkung".toList,
    "Gekennzeichneter Umsatz".toList, "Glaeubiger ID".toList, "Mandatsreferenz".toList]

/-- The data loop of `volksbankParser.ParseFile` over `records[1:]`. -/
def volksbankParseRows : List (List Str) → Nat → List VolksbankRecord →
    List VolksbankRecord × Option ParserError
  | [], _, acc => (acc, none)
  | row :: rest, lineNr, acc =>
    match parseDateDDMMYYYY (row.getD 4 []) with
    | none => (acc, some ⟨.DataParsingError, lineNr + 2, "Buchungstag".toList⟩)
    | some date =>
      match parseGoFloat (replaceAllChar (row.getD 11 []) ',' '.') with
      | none => (acc, some ⟨.DataParsingError, lineNr + 2, "Betrag".toList⟩)
      | some betrag =>
        volksbankParseRows rest (lineNr + 1)
          (acc ++ [{ buchungstag := date, verwendungszweck := row.getD 10 [],
                     nameZahlungsbeteiligter := row.getD 6 [], betrag := betrag }])

/-- `volksbankParser.ParseFile`. -/
def volksbankParseFile (_prior : List VolksbankRecord) (fd : Option FileData) :
    List VolksbankRecord × Option ParserError :=
  match fd with
  | none => ([], some ⟨.IOError, 0, []⟩)
  | some (.xlsx _) => ([], some ⟨.IOError, 0, []⟩)
  | some (.text lines) =>
    match csvReadAll ';' false lines with
    | .error _ => ([], some ⟨.IOError, 0, []⟩)
    | .ok records =>
      match records with
      | [] => ([], some ⟨.HeaderError, 0, []⟩)
      | header :: rows =>
        if ¬ isValidVolksbankHeader header then ([], some ⟨.HeaderError, 1, []⟩)
        else volksbankParseRows rows 0 []

/-- `volksbankRecord.convertRecord`. -/
def volksbankConvertRecord (v : VolksbankRecord) : HomebankRecord :=
  { emptyHomebankRecord with
    payment := 0
    memo := v.verwendungszweck
    date := formatDateISO v.buchungstag
    amount := v.betrag
    payee := v.nameZahlungsbeteiligter }

/-- Content written by `volksbankParser.ConvertToHomebank`. -/
def volksbankConvertToHomebank (entries : List VolksbankRecord) : List Str :=
  writeHomeBankRecordsContent (entries.map volksbankConvertRecord)

/-! ## MoneyWallet parser (`moneywallet.go`) -/

structure MoneywalletRecord where
  wallet : Str
  currency : Str
  category : Str
  datetime : Date
  money : Dec
  description : Str
  deriving DecidableEq, Repr

/-- `isValidMoneyWalletHeader` of `moneywallet.go`. -/
def isValidMoneyWalletHeader (record : List Str) : Bool :=
  record = ["wallet".toList, "currency".toList, "category".toList,
    "datetime".toList, "money".toList, "description".toList]

/-- The data loop of `moneywalletParser.ParseFile` over `records[1:]`. -/
def moneywalletParseRows : List (List Str) → Nat → List MoneywalletRecord →
    List MoneywalletRecord × Option ParserError
  | [], _, acc => (acc, none)
  | row :: rest, lineNr, acc =>
    match parseDateTimeMW (row.getD 3 []) with
    | none => (acc, some ⟨.DataParsingError, lineNr + 1, "datetime".toList⟩)
    | some date =>
      match parseGoFloat (trimSpace (replaceAllChar (row.getD 4 []) ',' '.')) with
      | none => (acc, some ⟨.DataParsingError, lineNr + 1, "money".toList⟩)
      | some money =>
        moneywalletParseRows rest (lineNr + 1)
          (acc ++ [{ wallet := row.getD 0 [], currency := row.getD 1 [],
                     category := row.getD 2 [], datetime := date, money := money,
                     description := row.getD 5 [] }])

/-- `moneywalletParser.ParseFile`. -/
def moneywalletParseFile (_prior : List MoneywalletRecord) (fd : Option FileData) :
    List MoneywalletRecord × Option ParserError :=
  match fd with
  | none => ([], some ⟨.IOError, 0, []⟩)
  | some (.xlsx _) => ([], some ⟨.IOError, 0, []⟩)
  | some (.text lines) =>
    match csvReadAll ',' false lines with
    | .error _ => ([], some ⟨.IOError, 0, []⟩)
    | .ok records =>
      match records with
      | [] => ([], some ⟨.HeaderError, 0, []⟩)
      | header :: rows =>
        if ¬ isValidMoneyWalletHeader header then ([], some ⟨.HeaderError, 1, []⟩)
        else moneywalletParseRows rows 0 []

/-- `moneywalletRecord.convertRecord`. -/
def moneywalletConvertRecord (m : MoneywalletRecord) : HomebankRecord :=
  { emptyHomebankRecord with
    category := m.category
    payment := 0
    info := m.description
    date := formatDateISO m.datetime
    amount := m.money }

/-- Content written by `moneywalletParser.ConvertToHomebank`. -/
def moneywalletConvertToHomebank (entries : List MoneywalletRecord) : List Str :=
  writeHomeBankRecordsContent (entries.map moneywalletConvertRecord)

end HomebankCsv

namespace HomebankCsv

open GoStr GoPath GoNum

/-! ## Comdirect parser (`comdirect.go`) -/

structure ComdirectRecord where
  buchungstag : Date
  vorgang : Str
  fullBuchungstext : Str
  auftraggeber : Str
  buchungstext : Str
  empfaenger : Str
  ktoIBAN : Str
  blzBic : Str
  umsatz_eur : Dec
  deriving DecidableEq, Repr

/-- `isValidComdirectHeader` of `comdirect.go` (note the trailing
empty field). -/
def isValidComdirectHeader (record : List Str) : Bool :=
  record = ["Buchungstag".toList, "Wertstellung (Valuta)".toList, "Vorgang".toList,
    "Buchungstext".toList, "Umsatz in EUR".toList, ([] : Str)]

/-- The label set of `comdirectParser.ParseFile`. -/
def comdirectListOfFields : List Str :=
  ["Auftraggeber".toList, "Buchungstext".toList, "Empfänger".toList,
   "Kto/IBAN".toList, "BLZ/BIC".toList]

/-- The data loop of `comdirectParser.ParseFile` over
`records[headerIndex+1:]`. -/
def comdirectParseRows (headerIndex : Nat) :
    List (List Str) → Nat → List ComdirectRecord →
    List ComdirectRecord × Option ParserError
  | [], _, acc => (acc, none)
  | row :: rest, lineNr, acc =>
    if row.length ≠ 6 then comdirectParseRows headerIndex rest (lineNr + 1) acc
    else if row.getD 0 [] = "offen".toList then
      comdirectParseRows headerIndex rest (lineNr + 1) acc
    else match parseDateDDMMYYYY (row.getD 0 []) with
    | none => (acc, some ⟨.DataParsingError, lineNr + headerIndex + 2, "Buchungstag".toList⟩)
    | some date =>
      let umsatzString := replaceAllChar (removeAllChar (row.getD 4 []) '.') ',' '.'
      match parseGoFloat umsatzString with
      | none => (acc, some ⟨.DataParsingError, lineNr + headerIndex + 2, "Umsatz in EUR".toList⟩)
      | some umsatz =>
        let splitInfo := splitComdirectBuchungstext comdirectListOfFields (row.getD 3 [])
        let cRecord : ComdirectRecord :=
          { buchungstag := date, vorgang := row.getD 2 [],
            fullBuchungstext := row.getD 3 [],
            auftraggeber := (lookupField splitInfo "Auftraggeber".toList).getD [],
            buchungstext := (lookupField splitInfo "Buchungstext".toList).getD [],
            empfaenger := (lookupField splitInfo "Empfänger".toList).getD [],
            ktoIBAN := (lookupField splitInfo "Kto/IBAN".toList).getD [],
            blzBic := (lookupField splitInfo "BLZ/BIC".toList).getD [],
            umsatz_eur := umsatz }
        comdirectParseRows headerIndex rest (lineNr + 1) (acc ++ [cRecord])

/-- `comdirectParser.ParseFile`.  The ISO-8859-1 transform reader is
modelled as the identity on the decoded text. -/
def comdirectParseFile (_prior : List ComdirectRecord) (fd : Option FileData) :
    List ComdirectRecord × Option ParserError :=
  match fd with
  | none => ([], some ⟨.IOError, 0, []⟩)
  | some (.xlsx _) => ([], some ⟨.IOError, 0, []⟩)
  | some (.text lines) =>
    match csvReadAll ';' true lines with
    | .error _ => ([], some ⟨.IOError, 0, []⟩)
    | .ok records =>
      match records.findIdx? isValidComdirectHeader with
      | none => ([], some ⟨.HeaderError, 0, []⟩)
      | some headerIndex =>
        comdirectParseRows headerIndex (records.drop (headerIndex + 1)) 0 []

/-- `comdirectRecord.convertRecord`. -/
def comdirectConvertRecord (c : ComdirectRecord) : HomebankRecord :=
  let base : HomebankRecord :=
    { emptyHomebankRecord with
      payment := 0
      date := formatDateISO c.buchungstag
      amount := c.umsatz_eur
      memo := c.fullBuchungstext
      info := getFirstNWords 3 c.buchungstext }
  if base.amount.isNegB then
    if c.auftraggeber ≠ [] then { base with payee := c.auftraggeber }
    else if c.vorgang = "Kartenverfügung".toList then
      { base with payee := getFirstNWords 4 c.buchungstext }
    else { base with payee := c.empfaenger }
  else base

/-- Content written by `comdirectParser.ConvertToHomebank`. -/
def comdirectConvertToHomebank (entries : List ComdirectRecord) : List Str :=
  writeHomeBankRecordsContent (entries.map comdirectConvertRecord)

/-! ## Barclaycard parser (`barclaycard.go`, spreadsheet input) -/

structure BarclaycardRecord where
  transactionDate : Date
  bookingDate : Date
  value : Dec
  description : Str
  payee : Str
  deriving DecidableEq, Repr

/-- `isValidBarclaycardHeader` of `barclaycard.go`. -/
def isValidBarclaycardHeader (record : List Str) : Bool :=
  record = ["Referenznummer".toList, "Buchungsdatum".toList, "Buchungsdatum".toList,
    "Betrag".toList, "Beschreibung".toList, "Typ".toList, "Status".toList,
    "Kartennummer".toList, "Originalbetrag".toList, "Mögliche Zahlpläne".toList,
    "Land".toList, "Name des Karteninhabers".toList, "Kartennetzwerk".toList,
    "Kontaktlose Bezahlung".toList, "Händlerdetails".toList]

/-- The row loop of `barclaycardParser.ParseFile`, carrying
`inDataSection` and `dataSectionFound`. -/
def barclaycardParseRows : List (List Str) → Nat → Bool → Bool →
    List BarclaycardRecord →
    List BarclaycardRecord × Option ParserError × Bool
  | [], _, _, found, acc => (acc, none, found)
  | row :: rest, lineNr, inData, found, acc =>
    if inData then
      match parseDateDDMMYYYY (row.getD 1 []) with
      | none =>
        (acc, some ⟨.DataParsingError, lineNr + 1, "Buchungsdatum(1)/Transaktionsdatum".toList⟩, found)
      | some tDate =>
        if (row.getD 2 []).length = 0 then
          barclaycardParseRows rest (lineNr + 1) inData found acc
        else match parseDateDDMMYYYY (row.getD 2 []) with
        | none => (acc, some ⟨.DataParsingError, lineNr + 1, "Buchungsdatum".toList⟩, found)
        | some bDate =>
          let valueString := trimRightCutset (replaceAllChar (row.getD 3 []) ',' '.') ['€']
          match parseGoFloat (trimSpace valueString) with
          | none => (acc, some ⟨.DataParsingError, lineNr + 1, "Betrag".toList⟩, found)
          | some value =>
            barclaycardParseRows rest (lineNr + 1) inData found
              (acc ++ [{ transactionDate := tDate, bookingDate := bDate, value := value,
                         description := row.getD 4 [], payee := row.getD 14 [] }])
    else
      if isValidBarclaycardHeader row then
        barclaycardParseRows rest (lineNr + 1) true true acc
      else barclaycardParseRows rest (lineNr + 1) inData found acc

/-- `barclaycardParser.ParseFile`.  Opening a non-spreadsheet file
fails in `excelize.OpenFile` (IOError); a workbook without `Sheet1`
fails in `GetRows` (HeaderError). -/
def barclaycardParseFile (_prior : List BarclaycardRecord) (fd : Option FileData) :
    List BarclaycardRecord × Option ParserError :=
  match fd with
  | none => ([], some ⟨.IOError, 0, []⟩)
  | some (.text _) => ([], some ⟨.IOError, 0, []⟩)
  | some (.xlsx none) => ([], some ⟨.HeaderError, 0, []⟩)
  | some (.xlsx (some rows)) =>
    match barclaycardParseRows rows 0 false false [] with
    | (acc, some e, _) => (acc, some e)
    | (acc, none, found) =>
      if found then (acc, none) else (acc, some ⟨.HeaderError, 0, []⟩)

/-- `barclaycardRecord.convertRecord`. -/
def barclaycardConvertRecord (b : BarclaycardRecord) : HomebankRecord :=
  { date := formatDateISO b.transactionDate
    payment := 1
    info := b.description
    payee := b.payee
    memo := []
    amount := b.value
    category := []
    tags := [] }

/-- Content written by `barclaycardParser.ConvertToHomebank`. -/
def barclaycardConvertToHomebank (entries : List BarclaycardRecord) : List Str :=
  writeHomeBankRecordsContent (entries.map barclaycardConvertRecord)

end HomebankCsv

namespace HomebankCsv

open GoStr

/-! ## Format registry and guesser (`parser.go`) -/

/-- `SourceFormat` is a Go `int`. -/
abbrev SourceFormat := Int

def MoneyWallet : SourceFormat := 0
def Barclaycard : SourceFormat := 1
def Volksbank : SourceFormat := 2
def Comdirect : SourceFormat := 3
def DKB : SourceFormat := 4

/-- The `sourceFormats` map as its set of entries.  Go iterates a map
in a randomized order; functions below that depend on the iteration
order take the order as a parameter. -/
def sourceFormats : List (SourceFormat × Str) :=
  [(MoneyWallet, "MoneyWallet".toList), (Barclaycard, "Barclaycard".toList),
   (Volksbank, "Volksbank".toList), (Comdirect, "Comdirect".toList),
   (DKB, "DKB".toList)]

/-- The key set of `sourceFormats`. -/
def sourceFormatKeys : List SourceFormat :=
  sourceFormats.map Prod.fst

/-- `SourceFormat.String`: the map holds at most one entry per key, so
the scan is order-independent and is modelled over the entry set. -/
def sourceFormatString (s : SourceFormat) : Str :=
  match sourceFormats.find? (fun kv => kv.fst = s) with
  | some kv => kv.snd
  | none => "unknown format".toList

/-- `SourceFormat.UnmarshalText`: values in the map are distinct, so
the scan is order-independent and is modelled over the entry set. -/
def sourceFormatUnmarshalText (text : Str) : Except Str SourceFormat :=
  match sourceFormats.find? (fun kv => kv.snd = text) with
  | some kv => .ok kv.fst
  | none => .error ("unsupported format '".toList ++ text ++ "'".toList)

/-- `GetSourceFormats` collects the keys of the `sourceFormats` map in
iteration order; the caller supplies the order the run produced. -/
def getSourceFormats (order : List SourceFormat) : List SourceFormat := order

/-- A parser instance: the variant fixes the format, the payload is
the parser's in-memory entry list. -/
inductive Parser where
  | moneywallet (entries : List MoneywalletRecord)
  | barclaycard (entries : List BarclaycardRecord)
  | volksbank (entries : List VolksbankRecord)
  | comdirect (entries : List ComdirectRecord)
  | dkb (entries : List DkbRecord)
  deriving DecidableEq, Repr

/-- `GetParser` of `parser.go`: a fresh parser for the five defined
tags, `nil` otherwise. -/
def getParser (s : SourceFormat) : Option Parser :=
  if s = MoneyWallet then some (.moneywallet [])
  else if s = Barclaycard then some (.barclaycard [])
  else if s = Volksbank then some (.volksbank [])
  else if s = Comdirect then some (.comdirect [])
  else if s = DKB then some (.dkb [])
  else none

/-- `Parser.GetFormat`. -/
def Parser.getFormat : Parser → SourceFormat
  | .moneywallet _ => MoneyWallet
  | .barclaycard _ => Barclaycard
  | .volksbank _ => Volksbank
  | .comdirect _ => Comdirect
  | .dkb _ => DKB

/-- `Parser.GetNumberOfEntries`. -/
def Parser.getNumberOfEntries : Parser → Nat
  | .moneywallet entries => entries.length
  | .barclaycard entries => entries.length
  | .volksbank entries => entries.length
  | .comdirect entries => entries.length
  | .dkb entries => entries.length

/-- `Parser.ParseFile`: dispatch to the format's parser, returning the
updated parser state and the error. -/
def Parser.parseFile : Parser → Option FileData → Parser × Option ParserError
  | .moneywallet prior, fd =>
    let (entries, err) := moneywalletParseFile prior fd
    (.moneywallet entries, err)
  | .barclaycard prior, fd =>
    let (entries, err) := barclaycardParseFile prior fd
    (.barclaycard entries, err)
  | .volksbank prior, fd =>
    let (entries, err) := volksbankParseFile prior fd
    (.volksbank entries, err)
  | .comdirect prior, fd =>
    let (entries, err) := comdirectParseFile prior fd
    (.comdirect entries, err)
  | .dkb prior, fd =>
    let (entries, err) := dkbParseFile prior fd
    (.dkb entries, err)

/-- `Parser.ConvertToHomebank`: the text content written to the output
file. -/
def Parser.convertToHomebank : Parser → List Str
  | .moneywallet entries => moneywalletConvertToHomebank entries
  | .barclaycard entries => barclaycardConvertToHomebank entries
  | .volksbank entries => volksbankConvertToHomebank entries
  | .comdirect entries => comdirectConvertToHomebank entries
  | .dkb entries => dkbConvertToHomebank entries

/-- `GetGuessedParser` of `parser.go`: try each format in the given
map-iteration order and return the first parser whose `ParseFile`
succeeds.  (For orders drawn from the key set `GetParser` never
returns `nil`; the `none` branch is unreachable there.) -/
def getGuessedParser (order : List SourceFormat) (fd : Option FileData) : Option Parser :=
  match order with
  | [] => none
  | f :: rest =>
    match getParser f with
    | none => getGuessedParser rest fd
    | some p =>
      match p.parseFile fd with
      | (p2, none) => some p2
      | (_, some _) => getGuessedParser rest fd

end HomebankCsv

namespace HomebankCsv

open GoStr GoPath GoNum

/-! ## Glob patterns (`path/filepath.Match`, used by `settings.go` and
`batchconvert.go`).  The pattern is compiled eagerly: a syntactically
malformed pattern is invalid regardless of the name (Go detects some
malformations lazily; both users of the matcher in the program treat a
malformed pattern as an error, which this model makes uniform). -/

inductive PatTok where
  | star
  | question
  | lit (c : Char)
  | cls (neg : Bool) (ranges : List (Char × Char))
  deriving DecidableEq, Repr

/-- Parse the body of a `[...]` class: the accumulated ranges and the
remainder after the closing `]`, or `none` when malformed. -/
def parseClassRanges (first : Bool) (acc : List (Char × Char)) :
    Str → Option (List (Char × Char) × Str)
  | [] => none
  | ']' :: r => if first then none else some (acc.reverse, r)
  | ['\\'] => none
  | ['\\', _, '-'] => none
  | '\\' :: lo :: '-' :: '\\' :: hi :: rest => parseClassRanges false ((lo, hi) :: acc) rest
  | '\\' :: lo :: '-' :: hi :: rest =>
    if hi = ']' then none else parseClassRanges false ((lo, hi) :: acc) rest
  | '\\' :: lo :: rest => parseClassRanges false ((lo, lo) :: acc) rest
  | [_lo, '-'] => none
  | lo :: '-' :: '\\' :: hi :: rest => parseClassRanges false ((lo, hi) :: acc) rest
  | lo :: '-' :: hi :: rest =>
    if hi = ']' then none else parseClassRanges false ((lo, hi) :: acc) rest
  | lo :: rest => parseClassRanges false ((lo, lo) :: acc) rest

/-- Pattern compiler.  Fuel counts remaining characters; every step
consumes at least one character, so `length + 1` fuel never runs
out. -/
def compilePatternAux : Nat → Str → Option (List PatTok)
  | 0, _ => none
  | _ + 1, [] => some []
  | fuel + 1, s =>
    match s with
    | [] => some []
    | '*' :: r => (compilePatternAux fuel r).map (.star :: ·)
    | '?' :: r => (compilePatternAux fuel r).map (.question :: ·)
    | ['\\'] => none
    | '\\' :: c :: r => (compilePatternAux fuel r).map (.lit c :: ·)
    | '[' :: '^' :: r =>
      match parseClassRanges true [] r with
      | none => none
      | some (ranges, rest) => (compilePatternAux fuel rest).map (.cls true ranges :: ·)
    | '[' :: r =>
      match parseClassRanges true [] r with
      | none => none
      | some (ranges, rest) => (compilePatternAux fuel rest).map (.cls false ranges :: ·)
    | c :: r => (compilePatternAux fuel r).map (.lit c :: ·)

def compilePattern (pattern : Str) : Option (List PatTok) :=
  compilePatternAux (pattern.length + 1) pattern

/-- Token-list matcher; `*` matches when some suffix of the name
matches the remaining tokens. -/
def patMatchToks : List PatTok → Str → Bool
  | [], name => name.isEmpty
  | .star :: tr, name => name.tails.any (fun s => patMatchToks tr s)
  | .question :: tr, name =>
    match name with
    | _ :: nr => patMatchToks tr nr
    | [] => false
  | .lit c :: tr, name =>
    match name with
    | d :: nr => (c = d) && patMatchToks tr nr
    | [] => false
  | .cls neg rs :: tr, name =>
    match name with
    | d :: nr => ((rs.any (fun p => p.1 ≤ d && d ≤ p.2)) != neg) && patMatchToks tr nr
    | [] => false

/-- Model of `filepath.Match(pattern, name) == true`. -/
def globMatch (pattern name : Str) : Bool :=
  match compilePattern pattern with
  | some toks => patMatchToks toks name
  | none => false

/-- `IsFileGlobPatternValid` of `settings.go`. -/
def isFileGlobPatternValid (pattern : Str) : Bool :=
  (compilePattern pattern).isSome

/-! ## Settings (`settings.go`) -/

/-- `BatchConvertSet` of `settings.go`. -/
structure BatchConvertSet where
  name : Str
  inputDir : Str
  outputDir : Str
  format : Option SourceFormat
  fileGlobPattern : Str
  fileMaxAgeDays : Int
  deriving DecidableEq, Repr

/-- `BatchConvertSettings` of `settings.go`. -/
structure BatchConvertSettings where
  sets : List BatchConvertSet
  deriving DecidableEq, Repr

/-- `BatchConvertSet.CheckValidity`. -/
def checkValiditySet (s : BatchConvertSet) : Except Str Unit :=
  if s.name = [] then .error "name is empty".toList
  else if s.inputDir = [] then .error "InputDir is empty".toList
  else if s.outputDir = [] then .error "OutputDir is empty".toList
  else if s.inputDir = s.outputDir then .error "InputDir == OutputDir".toList
  else if s.fileMaxAgeDays < 0 then .error "FileMaxAgeDays < 0".toList
  else if ¬ isFileGlobPatternValid s.fileGlobPattern then
    .error "FileGlobPattern is invalid".toList
  else .ok ()

/-- The loop of `BatchConvertSets.CheckValidity`, carrying the
accumulated names and InputDir/FileGlobPattern combinations. -/
def checkValiditySetsLoop : List BatchConvertSet → List Str → List Str → Except Str Unit
  | [], _, _ => .ok ()
  | entry :: rest, names, combos =>
    match checkValiditySet entry with
    | .error e => .error e
    | .ok _ =>
      if names.contains entry.name then .error "duplicate Name detected".toList
      else
        let value := entry.inputDir ++ entry.fileGlobPattern
        if combos.contains value then
          .error "duplicate InputDir / FileGlobPattern combination detected".toList
        else checkValiditySetsLoop rest (names ++ [entry.name]) (combos ++ [value])

/-- `BatchConvertSets.CheckValidity`. -/
def checkValiditySets (s : List BatchConvertSet) : Except Str Unit :=
  checkValiditySetsLoop s [] []

/-- Environment for path expansion: the home directory and the two
supported xdg user directories, empty when unavailable. -/
structure Env where
  home : Str
  documents : Str
  downloads : Str
  deriving DecidableEq, Repr

def trimLeftCutset (s : Str) (cutset : List Char) : Str :=
  s.dropWhile (fun c => cutset.contains c)

/-- `..`-component processing of `filepath.Clean`. -/
def cleanComponents (rooted : Bool) : List Str → List Str → List Str
  | [], acc => acc.reverse
  | c :: rest, acc =>
    if c = "..".toList then
      match acc with
      | [] => if rooted then cleanComponents rooted rest [] else cleanComponents rooted rest [c]
      | a :: as =>
        if a = "..".toList then cleanComponents rooted rest (c :: a :: as)
        else cleanComponents rooted rest as
    else cleanComponents rooted rest (c :: acc)

/-- Model of `filepath.Clean` (forward slashes). -/
def cleanPath (p : Str) : Str :=
  if p = [] then ".".toList
  else
    let rooted := p.head? = some '/'
    let comps := (splitOnChar '/' p).filter (fun c => c ≠ [] ∧ c ≠ ".".toList)
    let out := joinWith ['/'] (cleanComponents rooted comps [])
    if rooted then '/' :: out
    else if out = [] then ".".toList
    else out

/-- `filepath.Join` of two components: concatenation then `Clean`. -/
def goJoinClean (a b : Str) : Str := cleanPath (a ++ ['/'] ++ b)

/-- `userHomeDir` of `settings.go` (an empty home directory means the
lookup fails). -/
def userHomeDir (env : Env) : Except Str Str :=
  if env.home ≠ [] then .ok env.home
  else .error "cannot resolve home directory".toList

/-- `expandHome` of `settings.go`. -/
def expandHome (env : Env) (path : Str) : Except Str Str := do
  let home ← userHomeDir env
  if path = "~".toList then return home
  if path.length > 1 ∧ path.getD 1 ' ' ≠ '/' ∧ path.getD 1 ' ' ≠ '\\' then
    throw "unsupported home shortcut".toList
  let trimmed := trimLeftCutset (path.drop 1) ['/', '\\']
  if trimmed = [] then return home
  return goJoinClean home trimmed

def toLowerStr (s : Str) : Str := s.map Char.toLower

/-- `xdgDirForToken` of `settings.go`. -/
def xdgDirForToken (env : Env) (token : Str) : Except Str Str :=
  if token = "documents".toList then
    if env.documents ≠ [] then .ok env.documents
    else .error "xdg documents directory not found".toList
  else if token = "downloads".toList then
    if env.downloads ≠ [] then .ok env.downloads
    else .error "xdg downloads directory not found".toList
  else .error "unknown xdg shortcut".toList

/-- `expandXDG` of `settings.go`. -/
def expandXDG (env : Env) (path : Str) : Except Str Str := do
  let tokenWithRest := path.drop 4
  let lowerTokenWithRest := (toLowerStr path).drop 4
  let sepIndex := lowerTokenWithRest.findIdx? (fun c => c = '/' ∨ c = '\\')
  let (token, remainder) :=
    match sepIndex with
    | none => (lowerTokenWithRest, ([] : Str))
    | some i => (lowerTokenWithRest.take i, tokenWithRest.drop i)
  let base ← xdgDirForToken env token
  if remainder = [] then return base
  return goJoinClean base (trimLeftCutset remainder ['/', '\\'])

/-- `expandPath` of `settings.go`. -/
def expandPath (env : Env) (raw : Str) : Except Str Str := do
  if raw = [] then return []
  let path := raw
  let path ← if path.head? = some '~' then expandHome env path else pure path
  let path ←
    if (toLowerStr path).take 4 = "xdg:".toList then expandXDG env path else pure path
  return cleanPath path

/-- `BatchConvertSet.NormalizePaths`. -/
def normalizeSet (env : Env) (s : BatchConvertSet) : Except Str BatchConvertSet := do
  let expandedInput ← expandPath env s.inputDir
  let expandedOutput ← expandPath env s.outputDir
  return { s with inputDir := expandedInput, outputDir := expandedOutput }

/-- `BatchConvertSets.NormalizePaths` (the source mutates the sets in
place; the model returns the normalized list). -/
def normalizeSets (env : Env) : List BatchConvertSet → Except Str (List BatchConvertSet)
  | [] => .ok []
  | s :: rest => do
    let s' ← normalizeSet env s
    let rest' ← normalizeSets env rest
    return s' :: rest'

end HomebankCsv

namespace HomebankCsv

open GoStr GoPath GoNum

/-! ## Filesystem model and batch orchestrator (`batchconvert.go`) -/

/-- One file on disk: containing directory, base name, content,
modification time. -/
structure FSFile where
  dir : Str
  base : Str
  data : FileData
  mtime : Int
  deriving DecidableEq, Repr

/-- The filesystem: a set of directory paths and a set of files.
Sub-directories inside input directories are not modelled. -/
structure FS where
  dirs : List Str
  files : List FSFile
  deriving DecidableEq, Repr

/-- `os.Stat`: `none` when the path does not exist, otherwise
`IsDir()`. -/
def statKind (fs : FS) (path : Str) : Option Bool :=
  if fs.dirs.contains path then some true
  else if fs.files.any (fun f => joinPath f.dir f.base = path) then some false
  else none

/-- `os.Open` + read: the content of the file at `path`, if any. -/
def fsReadFile (fs : FS) (path : Str) : Option FileData :=
  (fs.files.find? (fun f => joinPath f.dir f.base = path)).map (·.data)

/-- `os.Create` + write: create or replace the file `(dir, base)`.
Writes always succeed in the model. -/
def fsWriteFile (fs : FS) (dir base : Str) (data : FileData) (mtime : Int) : FS :=
  { fs with
    files := fs.files.filter (fun f => ¬ (f.dir = dir ∧ f.base = base)) ++
      [{ dir := dir, base := base, data := data, mtime := mtime }] }

/-- `getTimeFromMaxAgeDays` of `batchconvert.go`; `none` is the zero
time (match-everything). -/
def getTimeFromMaxAgeDays (fileMaxAgeDays : Nat) (now : Int) : Option Int :=
  if fileMaxAgeDays = 0 then none else some (now - fileMaxAgeDays)

/-- `findFiles` of `batchconvert.go`: glob inside the input directory,
filter by modification time, sort alphabetically. -/
def findFiles (fs : FS) (inputDir fileGlobPattern : Str) (minTime : Option Int) :
    Except Str (List Str) :=
  if inputDir = [] then .ok []
  else
    let pattern := if fileGlobPattern = [] then ['*'] else fileGlobPattern
    if ¬ isFileGlobPatternValid pattern then .error "syntax error in pattern".toList
    else
      let matching := fs.files.filter (fun f =>
        f.dir = inputDir && globMatch pattern f.base &&
          (match minTime with
           | none => true
           | some m => decide (m ≤ f.mtime)))
      .ok (sortStrs (matching.map (fun f => joinPath f.dir f.base)))

/-- `ConversionStatus` constants of `batchconvert.go`. -/
inductive ConversionStatus where
  | notStartedYet
  | skipped
  | conversionInProgress
  | conversionError
  | conversionSuccess
  deriving DecidableEq, Repr

/-- `FileStatus` of `batchconvert.go`. -/
structure FileStatus where
  inputFile : Str
  outputFile : Str
  status : ConversionStatus
  format : Option SourceFormat
  deriving DecidableEq, Repr

/-- `BatchSetStatus` of `batchconvert.go`. -/
structure BatchSetStatus where
  files : List FileStatus
  name : Str
  deriving DecidableEq, Repr

/-- `BatchStatus` of `batchconvert.go`. -/
abbrev BatchStatus := List BatchSetStatus

/-- `BatchSetStatus.GetStats`. -/
def getStats (b : BatchSetStatus) : Nat × Nat :=
  b.files.foldl
    (fun (acc : Nat × Nat) f =>
      if f.status = .notStartedYet then (acc.1, acc.2 + 1) else (acc.1 + 1, acc.2))
    (0, 0)

def modifyAt {α : Type} : List α → Nat → (α → α) → List α
  | [], _, _ => []
  | x :: xs, 0, g => g x :: xs
  | x :: xs, i + 1, g => x :: modifyAt xs i g

/-- In-place update `status[setNr].Files[fileNr] = g(...)`. -/
def updateFileStatus (st : BatchStatus) (setNr fileNr : Nat)
    (g : FileStatus → FileStatus) : BatchStatus :=
  modifyAt st setNr (fun bss => { bss with files := modifyAt bss.files fileNr g })

/-- The base name of the output file: input base name with the
extension replaced by `.csv`. -/
def outfileBase (infile : Str) : Str :=
  pathBase (trimSuffix infile (pathExt infile) ++ ".csv".toList)

/-- The output path chosen for an input file. -/
def outfileOf (set : BatchConvertSet) (infile : Str) : Str :=
  joinPath set.outputDir (outfileBase infile)

/-- Parser selection and parse of `BatchConvert`'s per-file loop:
guess when the set has no fixed format, otherwise parse with the fixed
format's parser; `none` when no parser succeeds (for a fixed format
outside the five defined tags the Go code would dereference a nil
parser; the model folds that case into failure). -/
def selectParser (order : List SourceFormat) (set : BatchConvertSet)
    (fd : Option FileData) : Option Parser :=
  match set.format with
  | none => getGuessedParser order fd
  | some fmt =>
    match getParser fmt with
    | none => none
    | some p =>
      match p.parseFile fd with
      | (_, some _) => none
      | (p2, none) => some p2

/-- The body of the per-file loop of `BatchConvert`.  Returns the
updated status tree, the filesystem after any write, and the snapshots
handed to the callback (the callback sees the live tree; each snapshot
is its value at emission time). -/
def processFile (order : List SourceFormat) (set : BatchConvertSet) (now : Int)
    (setNr fileNr : Nat) (infile : Str) (st : BatchStatus) (fs : FS) :
    BatchStatus × FS × List BatchStatus :=
  let outfile := outfileOf set infile
  let st := updateFileStatus st setNr fileNr (fun f => { f with outputFile := outfile })
  if (statKind fs outfile).isSome then
    let st1 := updateFileStatus st setNr fileNr (fun f => { f with status := .skipped })
    (st1, fs, [st1])
  else
    let st1 := updateFileStatus st setNr fileNr
      (fun f => { f with status := .conversionInProgress })
    match selectParser order set (fsReadFile fs infile) with
    | none =>
      let st2 := updateFileStatus st1 setNr fileNr
        (fun f => { f with status := .conversionError })
      (st2, fs, [st1, st2])
    | some fileParser =>
      let st2 := updateFileStatus st1 setNr fileNr
        (fun f => { f with format := some fileParser.getFormat })
      let fs2 := fsWriteFile fs set.outputDir (outfileBase infile)
        (.text fileParser.convertToHomebank) now
      let st3 := updateFileStatus st2 setNr fileNr
        (fun f => { f with status := .conversionSuccess })
      (st3, fs2, [st1, st3])

/-- The per-file loop of `BatchConvert` over one set's file list. -/
def processFiles (order : List SourceFormat) (set : BatchConvertSet) (now : Int)
    (setNr : Nat) : List Str → Nat → BatchStatus → FS →
    BatchStatus × FS × List BatchStatus
  | [], _, st, fs => (st, fs, [])
  | infile :: rest, fileNr, st, fs =>
    let r1 := processFile order set now setNr fileNr infile st fs
    let r2 := processFiles order set now setNr rest (fileNr + 1) r1.1 r1.2.1
    (r2.1, r2.2.1, r1.2.2 ++ r2.2.2)

/-- Result of a batch run: the status tree, the filesystem, the
callback snapshots, the run-level error. -/
structure RunResult where
  status : BatchStatus
  fs : FS
  trace : List BatchStatus
  err : Option Str
  deriving Repr

/-- The per-set loop of `BatchConvert`. -/
def processSets (order : List SourceFormat) (now : Int) :
    List BatchConvertSet → Nat → BatchStatus → FS → RunResult
  | [], _, st, fs => ⟨st, fs, [], none⟩
  | set :: rest, setNr, st, fs =>
    match statKind fs set.outputDir with
    | none => ⟨st, fs, [], some "stat outputDir failed".toList⟩
    | some false => ⟨st, fs, [], some "outputDir is not a directory".toList⟩
    | some true =>
      let st := st ++ [{ files := [], name := set.name }]
      match findFiles fs set.inputDir set.fileGlobPattern
          (getTimeFromMaxAgeDays set.fileMaxAgeDays.toNat now) with
      | .error e => ⟨st, fs, [], some e⟩
      | .ok fileList =>
        let st := modifyAt st setNr (fun bss =>
          { bss with files := fileList.map (fun infile =>
              { inputFile := infile, outputFile := [], status := .notStartedYet,
                format := none }) })
        let r1 := processFiles order set now setNr fileList 0 st fs
        let r2 := processSets order now rest (setNr + 1) r1.1 r1.2.1
        ⟨r2.status, r2.fs, (st :: r1.2.2) ++ r2.trace, r2.err⟩

/-- `BatchConvert` of `batchconvert.go`.  `order` is the map-iteration
order the run's format guessing uses; `status = none` models the `nil`
status slice of the early-return paths. -/
def batchConvert (order : List SourceFormat) (s : BatchConvertSettings) (now : Int)
    (env : Env) (fs : FS) : Option BatchStatus × FS × List BatchStatus × Option Str :=
  if s.sets.length = 0 then (none, fs, [], none)
  else
    match normalizeSets env s.sets with
    | .error e => (none, fs, [], some e)
    | .ok nsets =>
      match checkValiditySets nsets with
      | .error e => (none, fs, [], some e)
      | .ok _ =>
        let r := processSets order now nsets 0 [] fs
        (some r.status, r.fs, r.trace, r.err)

end HomebankCsv

namespace HomebankCsv

open GoStr GoPath GoNum

/-! ## Claim C8: SourceFormat text round-trip -/

/-- C8: every defined SourceFormat tag round-trips through its textual
name (`String` then `UnmarshalText` restores the tag, and for each of
the five names the parsed tag renders back to the same name), and any
text that is not one of the five format names is rejected with an
error rather than coerced to a tag. -/
theorem sourceFormat_text_roundtrip :
    (∀ s ∈ sourceFormatKeys,
      sourceFormatUnmarshalText (sourceFormatString s) = .ok s) ∧
    (∀ name ∈ sourceFormats.map Prod.snd,
      ∃ t, sourceFormatUnmarshalText name = .ok t ∧ sourceFormatString t = name) ∧
    (∀ text, text ∉ sourceFormats.map Prod.snd →
      sourceFormatUnmarshalText text =
        .error ("unsupported format '".toList ++ text ++ "'".toList)) := by
  refine ⟨?_, ?_, ?_⟩
  · intro s hs
    fin_cases hs <;> rfl
  · intro name hname
    fin_cases hname
    · exact ⟨MoneyWallet, rfl, rfl⟩
    · exact ⟨Barclaycard, rfl, rfl⟩
    · exact ⟨Volksbank, rfl, rfl⟩
    · exact ⟨Comdirect, rfl, rfl⟩
    · exact ⟨DKB, rfl, rfl⟩
  · intro text htext
    have hfind : sourceFormats.find? (fun kv => kv.snd = text) = none := by
      rw [List.find?_eq_none]
      intro kv hkv
      simp only [decide_eq_true_eq]
      intro h
      exact htext (h ▸ List.mem_map_of_mem Prod.snd hkv)
    simp [sourceFormatUnmarshalText, hfind]

/-- Witness for C8 at concrete inputs. -/
theorem sourceFormat_text_roundtrip_witness :
    sourceFormatUnmarshalText (sourceFormatString DKB) = .ok DKB ∧
    sourceFormatUnmarshalText "not a format".toList =
      .error ("unsupported format '".toList ++ "not a format".toList ++ "'".toList) := by
  refine ⟨sourceFormat_text_roundtrip.1 DKB (by decide), ?_⟩
  exact sourceFormat_text_roundtrip.2.2 "not a format".toList (by decide)

/-! ## Claim C10: GetParser totality over the defined tags -/

/-- C10: `GetParser` returns a parser exactly for the five defined
SourceFormat tags, the returned parser's `GetFormat` equals the
requested tag, and every other SourceFormat value yields `nil`. -/
theorem getParser_defined_formats :
    (∀ s : SourceFormat, (getParser s).isSome ↔ s ∈ sourceFormatKeys) ∧
    (∀ s p, getParser s = some p → p.getFormat = s) := by
  constructor
  · intro s
    by_cases h0 : s = MoneyWallet
    · subst h0; decide
    · by_cases h1 : s = Barclaycard
      · subst h1; decide
      · by_cases h2 : s = Volksbank
        · subst h2; decide
        · by_cases h3 : s = Comdirect
          · subst h3; decide
          · by_cases h4 : s = DKB
            · subst h4; decide
            · have : getParser s = none := by
                simp [getParser, h0, h1, h2, h3, h4]
              simp [this, sourceFormatKeys, sourceFormats, h0, h1, h2, h3, h4]
  · intro s p hp
    unfold getParser at hp
    split_ifs at hp with h0 h1 h2 h3 h4 <;> cases hp <;>
      simp_all [Parser.getFormat]

/-- Witness for C10 at concrete inputs. -/
theorem getParser_defined_formats_witness :
    ((getParser Volksbank).isSome ↔ Volksbank ∈ sourceFormatKeys) ∧
    ((getParser 999999999).isSome ↔ (999999999 : SourceFormat) ∈ sourceFormatKeys) ∧
    (Parser.volksbank []).getFormat = Volksbank := by
  exact ⟨getParser_defined_formats.1 Volksbank,
    getParser_defined_formats.1 999999999,
    getParser_defined_formats.2 Volksbank (.volksbank []) rfl⟩

end HomebankCsv

namespace HomebankCsv

open GoStr GoPath GoNum

/-! ## Claim C9: ParseFile resets the entry list -/

/-- Preamble lines plus the fixed-position DKB header, followed by the
given data rows. -/
def dkbTestFile (rows : List Str) : FileData :=
  .text (["p1".toList, "p2".toList, "p3".toList,
    "Buchungsdatum;Wertstellung;Status;Zahlungspflichtige*r;Zahlungspflichtige*r;Verwendungszweck;Umsatztyp;IBAN;Betrag (€);Gläubiger-ID;Mandatsreferenz;Kundenreferenz".toList]
    ++ rows)

/-- A DKB file whose first data row parses and whose second data row
has a malformed booking date. -/
def dkbMidErrorFile : FileData :=
  dkbTestFile
    ["01.02.23;01.02.23;Gebucht;X;X;zweck;Eingang;DE12;5,00;gid;mref;kref".toList,
     "xx.yy.zz;01.02.23;Gebucht;X;X;zweck;Eingang;DE12;5,00;gid;mref;kref".toList]

/-- C9: every `ParseFile` call first resets the parser's entry list,
so the outcome of a call is independent of any earlier call (two
successive calls leave exactly the state of the second), and when a
`ParseFile` call fails mid-file with a DataParsingError the rows
accepted before the failing row remain stored (the entry list is not
empty on error). -/
theorem parseFile_resets_entries :
    (∀ (p : Parser) (fd1 fd2 : Option FileData),
      (((p.parseFile fd1).1).parseFile fd2) = p.parseFile fd2) ∧
    (dkbParseFile [] (some dkbMidErrorFile)).2 =
      some ⟨.DataParsingError, 7, "Buchungsdatum".toList⟩ ∧
    (dkbParseFile [] (some dkbMidErrorFile)).1.length = 1 := by
  refine ⟨?_, by decide, by decide⟩
  intro p fd1 fd2
  cases p <;> rfl

/-! ## Claim C2: the DKB settlement record filter -/

/-- The "Abrechnung" record content the source filters out. -/
def DkbAbrechnung (e : DkbRecord) : Prop :=
  e.umsatztyp = "Eingang".toList ∧ e.betrag_eur = decZero ∧
    e.zahlungspflichtiger1 = "DKB AG".toList ∧
    e.zahlungspflichtiger2 = "DKB AG".toList

/-- A DKB file containing a `Gebucht` row with amount 0 and both payer
fields `DKB AG`, but transaction type `Ausgang`. -/
def dkbAusgangZeroFile : FileData :=
  dkbTestFile
    ["01.02.23;01.02.23;Gebucht;DKB AG;DKB AG;zweck;Ausgang;DE12;0;gid;mref;kref".toList]

/-- C2 counterexample: the filter additionally requires
`Umsatztyp = "Eingang"`.  A zero-amount row whose two payer fields are
both `DKB AG` but whose type is `Ausgang` is accepted into the entry
list and is rendered into the canonical output, refuting the claim
that any such row is filtered out. -/
theorem dkb_zero_dkbag_row_not_filtered :
    (dkbParseFile [] (some dkbAusgangZeroFile)).2 = none ∧
    ((dkbParseFile [] (some dkbAusgangZeroFile)).1.map
      (fun e => (e.zahlungspflichtiger1, e.zahlungspflichtiger2, e.betrag_eur, e.umsatztyp))) =
      [("DKB AG".toList, "DKB AG".toList, decZero, "Ausgang".toList)] ∧
    (dkbConvertToHomebank (dkbParseFile [] (some dkbAusgangZeroFile)).1).length = 2 := by
  refine ⟨by decide, by decide, by decide⟩

theorem dkbParseRows_no_abrechnung :
    ∀ (rows : List (List Str)) (lineNr : Nat) (acc : List DkbRecord),
      (∀ e ∈ acc, ¬ DkbAbrechnung e) →
      ∀ e ∈ (dkbParseRows rows lineNr acc).1, ¬ DkbAbrechnung e := by
  intro rows
  induction rows with
  | nil => intro lineNr acc hacc; simpa [dkbParseRows] using hacc
  | cons row rest ih =>
    intro lineNr acc hacc
    rw [dkbParseRows]
    split
    · exact ih _ _ hacc
    · split
      · exact ih _ _ hacc
      · split
        · simpa using hacc
        · split
          · simpa using hacc
          · dsimp only
            split
            · simpa using hacc
            · split
              · exact ih _ _ hacc
              · rename_i hfilter
                refine ih _ _ ?_
                intro e he
                rcases List.mem_append.mp he with h | h
                · exact hacc e h
                · rcases List.mem_singleton.mp h with rfl
                  exact fun hc => hfilter ⟨hc.1, hc.2.1, hc.2.2.1, hc.2.2.2⟩

/-- C2 amended: for every input and parser state, a row whose type is
`Eingang`, whose amount is exactly zero and whose two same-named payer
fields are both `DKB AG` is filtered out of the entry list (and hence
never reaches the canonical output); rows matching the payer/amount
pattern but with a different transaction type are not filtered. -/
theorem dkb_abrechnung_filtered (prior : List DkbRecord) (fd : Option FileData) :
    ∀ e ∈ (dkbParseFile prior fd).1, ¬ DkbAbrechnung e := by
  unfold dkbParseFile
  split
  · simp
  · simp
  · split
    · simp
    · split
      · simp
      · split
        · simp
        · exact dkbParseRows_no_abrechnung _ 0 [] (by simp)

/-- Witness for C2's amended theorem: the zero-amount `Eingang`
settlement row is dropped while an ordinary row is kept, and the kept
entry is not an Abrechnung record. -/
theorem dkb_abrechnung_filtered_witness :
    (dkbParseFile [] (some (dkbTestFile
      ["01.02.23;01.02.23;Gebucht;DKB AG;DKB AG;zweck;Eingang;DE12;0;gid;mref;kref".toList,
       "01.02.23;01.02.23;Gebucht;X;X;zweck;Eingang;DE12;5,00;gid;mref;kref".toList]))).1.length = 1 ∧
    (∀ e ∈ (dkbParseFile ([] : List DkbRecord) (some (dkbTestFile
      ["01.02.23;01.02.23;Gebucht;DKB AG;DKB AG;zweck;Eingang;DE12;0;gid;mref;kref".toList,
       "01.02.23;01.02.23;Gebucht;X;X;zweck;Eingang;DE12;5,00;gid;mref;kref".toList]))).1,
      ¬ DkbAbrechnung e) :=
  ⟨by decide, dkb_abrechnung_filtered [] _⟩

end HomebankCsv

namespace HomebankCsv

open GoStr GoPath GoNum

/-! ## Claim C7: order-independence of the label-marker splitter -/

theorem lookupPos_insertPos (m : List (Nat × Str)) (p : Nat) (s : Str) (x : Nat) :
    lookupPos (insertPos m p s) x = if x = p then some s else lookupPos m x := by
  induction m with
  | nil =>
    simp only [insertPos, lookupPos]
    by_cases h : p = x
    · simp [h]
    · simp [h, Ne.symm h]
  | cons kv rest ih =>
    obtain ⟨q, t⟩ := kv
    simp only [insertPos]
    by_cases hqp : q = p
    · rw [if_pos hqp]
      subst hqp
      simp only [lookupPos]
      by_cases hqx : q = x
      · rw [if_pos hqx, if_pos hqx.symm]
      · rw [if_neg hqx, if_neg (fun hh => hqx hh.symm), if_neg hqx]
    · rw [if_neg hqp]
      simp only [lookupPos, ih]
      by_cases hqx : q = x <;> by_cases hxp : x = p
      · exact absurd (hqx.trans hxp) hqp
      · simp [hqx, hxp]
      · simp [hqx, hxp, hqp]
      · simp [hqx, hxp]

theorem mem_keys_insertPos (m : List (Nat × Str)) (p : Nat) (s : Str) (x : Nat) :
    x ∈ (insertPos m p s).map Prod.fst ↔ x = p ∨ x ∈ m.map Prod.fst := by
  induction m with
  | nil => simp [insertPos]
  | cons kv rest ih =>
    obtain ⟨q', t⟩ := kv
    by_cases hq' : q' = p
    · subst hq'
      simp [insertPos]
    · simp [insertPos, hq', ih]
      tauto

theorem nodup_keys_insertPos (m : List (Nat × Str)) (p : Nat) (s : Str)
    (h : (m.map Prod.fst).Nodup) : ((insertPos m p s).map Prod.fst).Nodup := by
  induction m with
  | nil => simp [insertPos]
  | cons kv rest ih =>
    obtain ⟨q', t⟩ := kv
    simp only [List.map_cons, List.nodup_cons] at h
    by_cases hq' : q' = p
    · subst hq'
      simpa [insertPos] using h
    · simp only [insertPos, if_neg hq', List.map_cons, List.nodup_cons]
      refine ⟨?_, ih h.2⟩
      intro hmem
      rcases (mem_keys_insertPos rest p s q').mp hmem with h1 | h1
      · exact hq' h1
      · exact h.1 h1

/-- Characterization of the map built by the first loop of
`splitComdirectBuchungstext`, under the assumption that distinct
labels of the list are found at distinct positions. -/
theorem lookupPos_buildStartPositions (t : Str) :
    ∀ (l : List Str) (m : List (Nat × Str)) (p : Nat) (s : Str),
      (∀ a ∈ l, ∀ b ∈ l, ∀ q, strIndex t (a ++ [':']) = some q →
        strIndex t (b ++ [':']) = some q → a = b) →
      (lookupPos (buildStartPositions t l m) p = some s ↔
        (strIndex t (s ++ [':']) = some p ∧ s ∈ l) ∨
        (lookupPos m p = some s ∧ ∀ a ∈ l, strIndex t (a ++ [':']) ≠ some p)) := by
  intro l
  induction l with
  | nil => intro m p s _; simp [buildStartPositions]
  | cons a rest ih =>
    intro m p s hinj
    have hinj' : ∀ x ∈ rest, ∀ y ∈ rest, ∀ q, strIndex t (x ++ [':']) = some q →
        strIndex t (y ++ [':']) = some q → x = y := by
      intro x hx y hy q h1 h2
      exact hinj x (List.mem_cons_of_mem a hx) y (List.mem_cons_of_mem a hy) q h1 h2
    rw [buildStartPositions]
    rcases hpa : strIndex t (a ++ [':']) with _ | q
    · rw [ih m p s hinj']
      constructor
      · rintro (⟨h1, h2⟩ | ⟨h1, h2⟩)
        · exact Or.inl ⟨h1, List.mem_cons_of_mem a h2⟩
        · refine Or.inr ⟨h1, ?_⟩
          intro x hx
          rcases List.mem_cons.mp hx with rfl | hx
          · simp [hpa]
          · exact h2 x hx
      · rintro (⟨h1, h2⟩ | ⟨h1, h2⟩)
        · rcases List.mem_cons.mp h2 with rfl | h2
          · rw [hpa] at h1; cases h1
          · exact Or.inl ⟨h1, h2⟩
        · exact Or.inr ⟨h1, fun x hx => h2 x (List.mem_cons_of_mem a hx)⟩
    · rw [ih (insertPos m q a) p s hinj']
      by_cases hpq : p = q
      · subst hpq
        constructor
        · rintro (⟨h1, h2⟩ | ⟨h1, h2⟩)
          · exact Or.inl ⟨h1, List.mem_cons_of_mem a h2⟩
          · rw [lookupPos_insertPos, if_pos rfl] at h1
            cases h1
            exact Or.inl ⟨hpa, List.mem_cons_self a rest⟩
        · rintro (⟨h1, h2⟩ | ⟨h1, h2⟩)
          · rcases List.mem_cons.mp h2 with rfl | h2
            · by_cases ha : s ∈ rest
              · exact Or.inl ⟨h1, ha⟩
              · refine Or.inr ⟨by rw [lookupPos_insertPos, if_pos rfl], ?_⟩
                intro x hx hxpos
                exact ha (hinj x (List.mem_cons_of_mem s hx) s (List.mem_cons_self s rest)
                  p hxpos h1 ▸ hx)
            · exact Or.inl ⟨h1, h2⟩
          · exact absurd hpa (h2 a (List.mem_cons_self a rest))
      · rw [lookupPos_insertPos, if_neg hpq]
        constructor
        · rintro (⟨h1, h2⟩ | ⟨h1, h2⟩)
          · exact Or.inl ⟨h1, List.mem_cons_of_mem a h2⟩
          · refine Or.inr ⟨h1, ?_⟩
            intro x hx
            rcases List.mem_cons.mp hx with rfl | hx
            · rw [hpa]
              intro hc
              cases hc
              exact hpq rfl
            · exact h2 x hx
        · rintro (⟨h1, h2⟩ | ⟨h1, h2⟩)
          · rcases List.mem_cons.mp h2 with rfl | h2
            · rw [hpa] at h1
              cases h1
              exact absurd rfl hpq
            · exact Or.inl ⟨h1, h2⟩
          · exact Or.inr ⟨h1, fun x hx => h2 x (List.mem_cons_of_mem a hx)⟩

/-- Membership in the key set of the built map. -/
theorem mem_keys_buildStartPositions (t : Str) :
    ∀ (l : List Str) (m : List (Nat × Str)) (p : Nat),
      (p ∈ (buildStartPositions t l m).map Prod.fst ↔
        (∃ s ∈ l, strIndex t (s ++ [':']) = some p) ∨ p ∈ m.map Prod.fst) := by
  intro l
  induction l with
  | nil => intro m p; simp [buildStartPositions]
  | cons a rest ih =>
    intro m p
    rw [buildStartPositions]
    rcases hpa : strIndex t (a ++ [':']) with _ | q
    · rw [ih]
      constructor
      · rintro (⟨s, hs1, hs2⟩ | h)
        · exact Or.inl ⟨s, List.mem_cons_of_mem a hs1, hs2⟩
        · exact Or.inr h
      · rintro (⟨s, hs1, hs2⟩ | h)
        · rcases List.mem_cons.mp hs1 with rfl | hs1
          · rw [hpa] at hs2; cases hs2
          · exact Or.inl ⟨s, hs1, hs2⟩
        · exact Or.inr h
    · rw [ih]
      constructor
      · rintro (⟨s, hs1, hs2⟩ | h)
        · exact Or.inl ⟨s, List.mem_cons_of_mem a hs1, hs2⟩
        · rcases (mem_keys_insertPos m q a p).mp h with rfl | h
          · exact Or.inl ⟨a, List.mem_cons_self a rest, hpa⟩
          · exact Or.inr h
      · rintro (⟨s, hs1, hs2⟩ | h)
        · rcases List.mem_cons.mp hs1 with rfl | hs1
          · rw [hpa] at hs2
            cases hs2
            exact Or.inr ((mem_keys_insertPos m p s p).mpr (Or.inl rfl))
          · exact Or.inl ⟨s, hs1, hs2⟩
        · exact Or.inr ((mem_keys_insertPos m q a p).mpr (Or.inr h))

theorem nodup_keys_buildStartPositions (t : Str) :
    ∀ (l : List Str) (m : List (Nat × Str)),
      (m.map Prod.fst).Nodup → ((buildStartPositions t l m).map Prod.fst).Nodup := by
  intro l
  induction l with
  | nil => intro m h; simpa [buildStartPositions] using h
  | cons a rest ih =>
    intro m h
    rw [buildStartPositions]
    rcases strIndex t (a ++ [':']) with _ | q
    · exact ih m h
    · exact ih _ (nodup_keys_insertPos m q a h)

theorem extractEntries_congr (t : Str) (m1 m2 : List (Nat × Str))
    (h : ∀ p, lookupPos m1 p = lookupPos m2 p) :
    ∀ ks : List Nat, extractEntries t m1 ks = extractEntries t m2 ks := by
  intro ks
  induction ks with
  | nil => rfl
  | cons k rest ih => simp [extractEntries, h k, ih]

end HomebankCsv

namespace HomebankCsv

open GoStr GoPath GoNum

/-- C7 counterexample: with overlapping labels found at the same text
position (`"A"` and `"A:B"` both match at position 0 of `"A:B:xyz"`),
the map insertion order — and hence the label-list order — decides
which label wins, so permuting the label list changes the result map.
The two orders are permutations of each other, yet the result maps
differ both as lists and under lookup. -/
theorem splitComdirect_order_dependent :
    ["A".toList, "A:B".toList].Perm ["A:B".toList, "A".toList] ∧
    lookupField (splitComdirectBuchungstext ["A".toList, "A:B".toList]
      "A:B:xyz".toList) "A".toList = none ∧
    lookupField (splitComdirectBuchungstext ["A:B".toList, "A".toList]
      "A:B:xyz".toList) "A".toList = some "B:xyz".toList ∧
    splitComdirectBuchungstext ["A".toList, "A:B".toList] "A:B:xyz".toList ≠
      splitComdirectBuchungstext ["A:B".toList, "A".toList] "A:B:xyz".toList := by
  decide

/-- C7 amended: `splitComdirectBuchungstext` is order-independent for
label lists whose distinct found labels occupy distinct positions in
the text (in particular for the comdirect field list, none of whose
labels is a prefix of another): permuting such a list yields an
identical result map.  Without that proviso the claim fails, because
two labels found at the same position collide in the position map and
the later list entry wins. -/
theorem splitComdirectBuchungstext_perm_invariant (l1 l2 : List Str) (t : Str)
    (hperm : l1.Perm l2)
    (hinj : ∀ a ∈ l1, ∀ b ∈ l1,
      strIndex t (a ++ [':']) = strIndex t (b ++ [':']) →
      strIndex t (a ++ [':']) = none ∨ a = b) :
    splitComdirectBuchungstext l1 t = splitComdirectBuchungstext l2 t := by
  have hinjq : ∀ a ∈ l1, ∀ b ∈ l1, ∀ q, strIndex t (a ++ [':']) = some q →
      strIndex t (b ++ [':']) = some q → a = b := by
    intro a ha b hb q h1 h2
    rcases hinj a ha b hb (h1.trans h2.symm) with h | h
    · rw [h1] at h; cases h
    · exact h
  have hinjq2 : ∀ a ∈ l2, ∀ b ∈ l2, ∀ q, strIndex t (a ++ [':']) = some q →
      strIndex t (b ++ [':']) = some q → a = b := by
    intro a ha b hb q h1 h2
    exact hinjq a (hperm.symm.subset ha) b (hperm.symm.subset hb) q h1 h2
  have hlk : ∀ p s, lookupPos (buildStartPositions t l1 []) p = some s ↔
      lookupPos (buildStartPositions t l2 []) p = some s := by
    intro p s
    rw [lookupPos_buildStartPositions t l1 [] p s hinjq,
      lookupPos_buildStartPositions t l2 [] p s hinjq2]
    simp only [lookupPos, false_and, or_false, hperm.mem_iff]
  have hlkeq : ∀ p, lookupPos (buildStartPositions t l1 []) p =
      lookupPos (buildStartPositions t l2 []) p := by
    intro p
    rcases h1 : lookupPos (buildStartPositions t l1 []) p with _ | s
    · rcases h2 : lookupPos (buildStartPositions t l2 []) p with _ | s
      · rfl
      · have := (hlk p s).mpr h2
        rw [h1] at this
        cases this
    · exact ((hlk p s).mp h1).symm
  have hmem : ∀ p, p ∈ (buildStartPositions t l1 []).map Prod.fst ↔
      p ∈ (buildStartPositions t l2 []).map Prod.fst := by
    intro p
    rw [mem_keys_buildStartPositions, mem_keys_buildStartPositions]
    simp only [List.map_nil, List.not_mem_nil, or_false]
    exact exists_congr fun s => and_congr_left fun _ => hperm.mem_iff
  have hn1 : ((buildStartPositions t l1 []).map Prod.fst).Nodup :=
    nodup_keys_buildStartPositions t l1 [] (by simp)
  have hn2 : ((buildStartPositions t l2 []).map Prod.fst).Nodup :=
    nodup_keys_buildStartPositions t l2 [] (by simp)
  have hkp : ((buildStartPositions t l1 []).map Prod.fst).Perm
      ((buildStartPositions t l2 []).map Prod.fst) :=
    (List.perm_ext_iff_of_nodup hn1 hn2).mpr hmem
  have hsorted : sortNats ((buildStartPositions t l1 []).map Prod.fst) =
      sortNats ((buildStartPositions t l2 []).map Prod.fst) := by
    refine @List.eq_of_perm_of_sorted ℕ (· ≤ ·) _ _ _
      (((List.perm_insertionSort _ _).trans hkp).trans
        (List.perm_insertionSort _ _).symm) ?_ ?_
    · exact List.sorted_insertionSort _ _
    · exact List.sorted_insertionSort _ _
  have hnil : (buildStartPositions t l1 [] = []) ↔
      (buildStartPositions t l2 [] = []) := by
    rw [← List.map_eq_nil_iff (f := Prod.fst), ← List.map_eq_nil_iff (f := Prod.fst),
      List.eq_nil_iff_forall_not_mem, List.eq_nil_iff_forall_not_mem]
    exact forall_congr' fun p => not_congr (hmem p)
  show (if buildStartPositions t l1 [] = [] then ([] : List (Str × Str))
      else extractEntries t (buildStartPositions t l1 [])
        (sortNats ((buildStartPositions t l1 []).map Prod.fst))) =
    (if buildStartPositions t l2 [] = [] then ([] : List (Str × Str))
      else extractEntries t (buildStartPositions t l2 [])
        (sortNats ((buildStartPositions t l2 []).map Prod.fst)))
  by_cases hm1 : buildStartPositions t l1 [] = []
  · rw [if_pos hm1, if_pos (hnil.mp hm1)]
  · rw [if_neg hm1, if_neg (fun h => hm1 (hnil.mpr h)), hsorted,
      extractEntries_congr t _ _ hlkeq]

/-- Witness for C7's amended theorem on the label list of the source
documentation example, permuted. -/
theorem splitComdirectBuchungstext_perm_invariant_witness :
    (["first".toList, "second".toList].Perm ["second".toList, "first".toList]) ∧
    splitComdirectBuchungstext ["first".toList, "second".toList]
        "first:abcfirstsecond:abcsecond".toList =
      splitComdirectBuchungstext ["second".toList, "first".toList]
        "first:abcfirstsecond:abcsecond".toList :=
  ⟨by decide,
    splitComdirectBuchungstext_perm_invariant _ _ _ (by decide) (by decide)⟩

end HomebankCsv

namespace HomebankCsv

open GoStr GoPath GoNum

/-! ## Claim C6: header validation and HeaderError line numbers -/

/-- C6 counterexample: the volksbank parser inspects only the first
record; when it mismatches, no matching header exists anywhere in the
file, yet the returned HeaderError carries line number 1, not 0. -/
theorem volksbank_headerError_carries_line :
    volksbankParseFile [] (some (.text ["garbage".toList])) =
      ([], some ⟨.HeaderError, 1, []⟩) ∧ (1 : Nat) ≠ 0 := by
  exact ⟨by decide, by decide⟩

theorem barclaycardParseRows_no_header (rows : List (List Str)) :
    ∀ lineNr acc, (∀ r ∈ rows, ¬ isValidBarclaycardHeader r) →
      barclaycardParseRows rows lineNr false false acc = (acc, none, false) := by
  induction rows with
  | nil => intro lineNr acc _; rfl
  | cons row rest ih =>
    intro lineNr acc h
    rw [barclaycardParseRows]
    simp only [Bool.false_eq_true, if_false]
    rw [if_neg (by simpa using h row (List.mem_cons_self row rest))]
    exact ih _ _ (fun r hr => h r (List.mem_cons_of_mem row hr))

/-- C6 amended: every parser rejects a candidate header row that
differs from its expected field list with a HeaderError, but the line
number depends on the parser.  When no candidate header row exists at
all (empty CSV, fewer than four records for DKB) the HeaderError
carries no line number (0), and the scanning parsers (comdirect,
barclaycard) also return line 0 when no row of the whole file matches;
the fixed-position parsers report the mismatching candidate row's line
number instead: volksbank and moneywallet line 1, DKB line 5. -/
theorem headerError_behaviour :
    (∀ (prior : List VolksbankRecord) lines header rows,
      csvReadAll ';' false lines = .ok (header :: rows) →
      ¬ isValidVolksbankHeader header →
      volksbankParseFile prior (some (.text lines)) =
        ([], some ⟨.HeaderError, 1, []⟩)) ∧
    (∀ (prior : List VolksbankRecord) lines,
      csvReadAll ';' false lines = .ok [] →
      volksbankParseFile prior (some (.text lines)) =
        ([], some ⟨.HeaderError, 0, []⟩)) ∧
    (∀ (prior : List MoneywalletRecord) lines header rows,
      csvReadAll ',' false lines = .ok (header :: rows) →
      ¬ isValidMoneyWalletHeader header →
      moneywalletParseFile prior (some (.text lines)) =
        ([], some ⟨.HeaderError, 1, []⟩)) ∧
    (∀ (prior : List DkbRecord) lines records,
      csvReadAll ';' true lines = .ok records → records.length < 4 →
      dkbParseFile prior (some (.text lines)) =
        ([], some ⟨.HeaderError, 0, []⟩)) ∧
    (∀ (prior : List DkbRecord) lines records,
      csvReadAll ';' true lines = .ok records → 4 ≤ records.length →
      ¬ isValidDkbHeader (records.getD 3 []) →
      dkbParseFile prior (some (.text lines)) =
        ([], some ⟨.HeaderError, 5, []⟩)) ∧
    (∀ (prior : List ComdirectRecord) lines records,
      csvReadAll ';' true lines = .ok records →
      (∀ r ∈ records, ¬ isValidComdirectHeader r) →
      comdirectParseFile prior (some (.text lines)) =
        ([], some ⟨.HeaderError, 0, []⟩)) ∧
    (∀ (prior : List BarclaycardRecord) rows,
      (∀ r ∈ rows, ¬ isValidBarclaycardHeader r) →
      barclaycardParseFile prior (some (.xlsx (some rows))) =
        ([], some ⟨.HeaderError, 0, []⟩)) := by
  refine ⟨?_, ?_, ?_, ?_, ?_, ?_, ?_⟩
  · intro prior lines header rows h hbad
    simp [volksbankParseFile, h, hbad]
  · intro prior lines h
    simp [volksbankParseFile, h]
  · intro prior lines header rows h hbad
    simp [moneywalletParseFile, h, hbad]
  · intro prior lines records h hlen
    simp [dkbParseFile, h, hlen]
  · intro prior lines records h hlen hbad
    have hlt : ¬ records.length < 3 + 1 := by omega
    have hbad2 : ¬ isValidDkbHeader (records[3]?.getD []) = true := by
      simpa [List.getD] using hbad
    simp [dkbParseFile, h, hlt, hbad2]
  · intro prior lines records h hnone
    have hidx : records.findIdx? isValidComdirectHeader = none := by
      rw [List.findIdx?_eq_none_iff]
      intro r hr
      simpa using hnone r hr
    simp [comdirectParseFile, h, hidx]
  · intro prior rows h
    simp [barclaycardParseFile, barclaycardParseRows_no_header rows 0 [] h]

/-- Witness for C6's amended theorem at concrete inputs: a mismatching
volksbank header is rejected at line 1, a short DKB file is rejected
with no line number, a DKB file whose fourth record mismatches is
rejected at line 5, and a comdirect file with no matching row is
rejected with no line number. -/
theorem headerError_behaviour_witness :
    volksbankParseFile [] (some (.text ["garbage".toList])) =
      ([], some ⟨.HeaderError, 1, []⟩) ∧
    dkbParseFile [] (some (.text ["p1".toList])) =
      ([], some ⟨.HeaderError, 0, []⟩) ∧
    dkbParseFile [] (some (.text ["p1".toList, "p2".toList, "p3".toList, "p4".toList])) =
      ([], some ⟨.HeaderError, 5, []⟩) ∧
    comdirectParseFile [] (some (.text ["garbage".toList])) =
      ([], some ⟨.HeaderError, 0, []⟩) :=
  ⟨headerError_behaviour.1 [] _ ["garbage".toList] [] rfl (by decide),
   headerError_behaviour.2.2.2.1 [] _ [["p1".toList]] rfl (by decide),
   headerError_behaviour.2.2.2.2.1 [] _
     [["p1".toList], ["p2".toList], ["p3".toList], ["p4".toList]]
     rfl (by decide) (by decide),
   headerError_behaviour.2.2.2.2.2.1 [] _ [["garbage".toList]] rfl
     (by decide)⟩

end HomebankCsv

namespace HomebankCsv

open GoStr GoPath GoNum

/-! ## Claim C1: format autodetection determinism -/

/-- Whether the format's parser parses the file without error. -/
def formatParses (s : SourceFormat) (fd : Option FileData) : Bool :=
  match getParser s with
  | none => false
  | some p => decide ((p.parseFile fd).2 = none)

/-- The parser state `GetGuessedParser` would return for a format. -/
def parsedParserFor (s : SourceFormat) (fd : Option FileData) : Option Parser :=
  match getParser s with
  | none => none
  | some p => some (p.parseFile fd).1

theorem getParser_isSome_of_key : ∀ s ∈ sourceFormatKeys, (getParser s).isSome := by
  decide

theorem getGuessedParser_eq_find (fd : Option FileData) :
    ∀ o : List SourceFormat, (∀ s ∈ o, (getParser s).isSome) →
      getGuessedParser o fd =
        (o.find? (fun s => formatParses s fd)).bind (fun s => parsedParserFor s fd) := by
  intro o
  induction o with
  | nil => intro _; rfl
  | cons f rest ih =>
    intro h
    have hf : (getParser f).isSome := h f (List.mem_cons_self f rest)
    rcases hp : getParser f with _ | p
    · rw [hp] at hf; cases hf
    · rcases hpf : p.parseFile fd with ⟨p2, e⟩
      rcases e with _ | err
      · have hpred : formatParses f fd = true := by
          simp [formatParses, hp, hpf]
        simp [getGuessedParser, hp, hpf, List.find?_cons, hpred, parsedParserFor]
      · have hpred : formatParses f fd = false := by
          simp [formatParses, hp, hpf]
        simp [getGuessedParser, hp, hpf, List.find?_cons, hpred]
        exact ih (fun s hs => h s (List.mem_cons_of_mem f hs))

/-- C1 amended: `GetGuessedParser` tries the formats in the iteration
order of the `sourceFormats` map, which Go randomizes per run, and
returns the first parser that parses the file without error.  Two runs
(two iteration orders, each a permutation of the key set) select the
same format whenever at most one format parses the file — in
particular for every file that no format, or exactly one format,
accepts — but not in general. -/
theorem getGuessedParser_deterministic_of_unique
    (o1 o2 : List SourceFormat) (fd : Option FileData)
    (h1 : o1.Perm sourceFormatKeys) (h2 : o2.Perm sourceFormatKeys)
    (huniq : ∀ a ∈ sourceFormatKeys, ∀ b ∈ sourceFormatKeys,
      formatParses a fd = true → formatParses b fd = true → a = b) :
    getGuessedParser o1 fd = getGuessedParser o2 fd := by
  rw [getGuessedParser_eq_find fd o1
      (fun s hs => getParser_isSome_of_key s (h1.subset hs)),
    getGuessedParser_eq_find fd o2
      (fun s hs => getParser_isSome_of_key s (h2.subset hs))]
  suffices hfind : o1.find? (fun s => formatParses s fd) =
      o2.find? (fun s => formatParses s fd) by rw [hfind]
  rcases hf1 : o1.find? (fun s => formatParses s fd) with _ | a
  · rcases hf2 : o2.find? (fun s => formatParses s fd) with _ | b
    · rfl
    · have hbmem : b ∈ o1 := h1.mem_iff.mpr (h2.subset (List.mem_of_find?_eq_some hf2))
      have hbpred : formatParses b fd = true := by simpa using List.find?_some hf2
      have hnb := List.find?_eq_none.mp hf1 b hbmem
      simp [hbpred] at hnb
  · have hamem : a ∈ o2 := h2.mem_iff.mpr (h1.subset (List.mem_of_find?_eq_some hf1))
    have hapred : formatParses a fd = true := by simpa using List.find?_some hf1
    have hsome : (o2.find? (fun s => formatParses s fd)).isSome :=
      List.find?_isSome.mpr ⟨a, hamem, by simpa using hapred⟩
    rcases hf2 : o2.find? (fun s => formatParses s fd) with _ | b
    · rw [hf2] at hsome; cases hsome
    · have hab : a = b :=
        huniq a (h1.subset (List.mem_of_find?_eq_some hf1))
          b (h2.subset (List.mem_of_find?_eq_some hf2))
          hapred (by simpa using List.find?_some hf2)
      rw [hab]

/-- Witness for C1's amended theorem: on a file that only the
volksbank parser accepts, two different iteration orders select the
same parser. -/
theorem getGuessedParser_deterministic_of_unique_witness :
    ([MoneyWallet, Barclaycard, Volksbank, Comdirect, DKB].Perm sourceFormatKeys) ∧
    ([DKB, Comdirect, Volksbank, Barclaycard, MoneyWallet].Perm sourceFormatKeys) ∧
    getGuessedParser [MoneyWallet, Barclaycard, Volksbank, Comdirect, DKB]
        (some (.text ["wallet,currency,category,datetime,money,description".toList])) =
      getGuessedParser [DKB, Comdirect, Volksbank, Barclaycard, MoneyWallet]
        (some (.text ["wallet,currency,category,datetime,money,description".toList])) :=
  ⟨by decide, by decide,
    getGuessedParser_deterministic_of_unique _ _ _ (by decide) (by decide) (by decide)⟩

/-- A file that both the comdirect parser and the DKB parser accept:
the comdirect header is record 0 (the DKB header at record 3 has 12
fields and is skipped as a data row), and the DKB header is at its
fixed position, record 3. -/
def ambiguousFile : FileData :=
  .text ["Buchungstag;Wertstellung (Valuta);Vorgang;Buchungstext;Umsatz in EUR;".toList,
    "x".toList, "x".toList,
    "Buchungsdatum;Wertstellung;Status;Zahlungspflichtige*r;Zahlungspflichtige*r;Verwendungszweck;Umsatztyp;IBAN;Betrag (€);Gläubiger-ID;Mandatsreferenz;Kundenreferenz".toList]

/-- C1 counterexample: `GetSourceFormats` collects the keys of a Go
map, whose iteration order is randomized per run, so the guessing
order is not deterministic across runs.  For a file parseable by both
comdirect and DKB, two legitimate iteration orders (both permutations
of the key set) make `GetGuessedParser` select different formats. -/
theorem getGuessedParser_run_dependent :
    ([Comdirect, DKB, MoneyWallet, Barclaycard, Volksbank].Perm sourceFormatKeys) ∧
    ([DKB, Comdirect, MoneyWallet, Barclaycard, Volksbank].Perm sourceFormatKeys) ∧
    (getGuessedParser [Comdirect, DKB, MoneyWallet, Barclaycard, Volksbank]
      (some ambiguousFile)).map Parser.getFormat = some Comdirect ∧
    (getGuessedParser [DKB, Comdirect, MoneyWallet, Barclaycard, Volksbank]
      (some ambiguousFile)).map Parser.getFormat = some DKB ∧
    Comdirect ≠ DKB := by
  refine ⟨by decide, by decide, by decide, by decide, by decide⟩

end HomebankCsv

namespace HomebankCsv

open GoStr GoPath GoNum

/-! ## Status-tree access lemmas (shared by the batch claims) -/

/-- The status of file `j` of set `i` in a status tree, when present. -/
def fileStatusAt (st : BatchStatus) (i j : Nat) : Option ConversionStatus :=
  (st[i]?.bind (fun bss => bss.files[j]?)).map (fun f => f.status)

theorem modifyAt_getElem? {α : Type} (l : List α) (i j : Nat) (g : α → α) :
    (modifyAt l i g)[j]? = if i = j then l[j]?.map g else l[j]? := by
  induction l generalizing i j with
  | nil => simp [modifyAt]
  | cons x xs ih =>
    cases i with
    | zero =>
      cases j with
      | zero => simp [modifyAt]
      | succ k => simp [modifyAt]
    | succ n =>
      cases j with
      | zero => simp [modifyAt]
      | succ k => simpa [modifyAt] using ih n k

theorem modifyAt_length {α : Type} (l : List α) (i : Nat) (g : α → α) :
    (modifyAt l i g).length = l.length := by
  induction l generalizing i with
  | nil => rfl
  | cons x xs ih =>
    cases i with
    | zero => simp [modifyAt]
    | succ n => simpa [modifyAt] using ih n

theorem updateFileStatus_length (st : BatchStatus) (i j : Nat)
    (g : FileStatus → FileStatus) :
    (updateFileStatus st i j g).length = st.length :=
  modifyAt_length st i _

theorem fileStatusAt_update (st : BatchStatus) (i j : Nat)
    (g : FileStatus → FileStatus) (σ : ConversionStatus → ConversionStatus)
    (hg : ∀ f, (g f).status = σ f.status) (i' j' : Nat) :
    fileStatusAt (updateFileStatus st i j g) i' j' =
      if i = i' ∧ j = j' then (fileStatusAt st i' j').map σ
      else fileStatusAt st i' j' := by
  unfold fileStatusAt updateFileStatus
  rw [modifyAt_getElem?]
  by_cases hi : i = i'
  · subst hi
    rw [if_pos rfl]
    by_cases hj : j = j'
    · subst hj
      rw [if_pos ⟨rfl, rfl⟩]
      rcases hst : st[i]? with _ | bss
      · simp
      · simp only [Option.map_some', Option.some_bind]
        rw [modifyAt_getElem?, if_pos rfl]
        rcases hf : bss.files[j]? with _ | f
        · simp
        · simp [hg f]
    · rw [if_neg (fun h => hj h.2)]
      rcases hst : st[i]? with _ | bss
      · simp
      · simp only [Option.map_some', Option.some_bind]
        rw [modifyAt_getElem?, if_neg hj]
  · rw [if_neg hi, if_neg (fun h => hi h.1)]

theorem fileStatusAt_update_preserve (st : BatchStatus) (i j : Nat)
    (g : FileStatus → FileStatus) (hg : ∀ f, (g f).status = f.status) (i' j' : Nat) :
    fileStatusAt (updateFileStatus st i j g) i' j' = fileStatusAt st i' j' := by
  rw [fileStatusAt_update st i j g id (by simpa using hg)]
  split <;> simp

theorem fileStatusAt_append_left (st : BatchStatus) (more : BatchStatus)
    (i j : Nat) (hi : i < st.length) :
    fileStatusAt (st ++ more) i j = fileStatusAt st i j := by
  unfold fileStatusAt
  rw [List.getElem?_append_left hi]

end HomebankCsv

namespace HomebankCsv

open GoStr GoPath GoNum

/-! ## Claim C5: the per-file status state machine -/

/-- The legal change of one file's status between two consecutive
callback snapshots: unchanged, or one edge of
`NotStarted → (Skipped | InProgress → (Error | Success))`. -/
def allowedStep (a b : ConversionStatus) : Prop :=
  a = b ∨
  (a = .notStartedYet ∧ (b = .skipped ∨ b = .conversionInProgress)) ∨
  (a = .conversionInProgress ∧ (b = .conversionError ∨ b = .conversionSuccess))

/-- Relation between consecutive snapshots: every file present in the
later snapshot either was present before and took an allowed step, or
is new and starts at NotStarted. -/
def stepOK (s1 s2 : BatchStatus) : Prop :=
  ∀ i j b, fileStatusAt s2 i j = some b →
    (match fileStatusAt s1 i j with
     | some a => allowedStep a b
     | none => b = ConversionStatus.notStartedYet)

/-- A terminal status. -/
def terminalStatus (c : ConversionStatus) : Prop :=
  c = .skipped ∨ c = .conversionError ∨ c = .conversionSuccess

theorem stepOK_refl (s : BatchStatus) : stepOK s s := by
  intro i j b hb
  simp only [hb]
  exact Or.inl rfl

theorem stepOK_of_single (s1 s2 : BatchStatus) (i j : Nat) (a0 k : ConversionStatus)
    (heq : ∀ i' j', ¬(i' = i ∧ j' = j) → fileStatusAt s2 i' j' = fileStatusAt s1 i' j')
    (hat1 : fileStatusAt s1 i j = some a0)
    (hat2 : fileStatusAt s2 i j = some k)
    (ha : allowedStep a0 k) : stepOK s1 s2 := by
  intro i' j' b hb
  by_cases hij : i' = i ∧ j' = j
  · obtain ⟨rfl, rfl⟩ := hij
    rw [hat2] at hb
    cases hb
    simp only [hat1]
    exact ha
  · rw [heq i' j' hij] at hb
    simp only [hb]
    exact Or.inl rfl

theorem getLast?_cons_eq_getLastD {α : Type} (x : α) (l : List α) :
    (x :: l).getLast? = some (l.getLastD x) := by
  induction l generalizing x with
  | nil => rfl
  | cons y ys ih => rw [List.getLast?_cons_cons, ih y, List.getLastD_cons]

theorem getLastD_append {α : Type} (l1 l2 : List α) (d : α) :
    (l1 ++ l2).getLastD d = l2.getLastD (l1.getLastD d) := by
  induction l1 generalizing d with
  | nil => rfl
  | cons x xs ih =>
    cases l2 with
    | nil => simp [List.getLastD]
    | cons y ys => simpa [List.getLastD] using ih x

/-- Behaviour of the per-file loop body on a file whose status is
NotStarted: the snapshots it emits continue the chain, the last
snapshot is its final status tree, other positions are untouched, the
file reaches a terminal status, and the tree shape is preserved. -/
theorem processFile_trace (o : List SourceFormat) (set : BatchConvertSet) (now : Int)
    (setNr fileNr : Nat) (infile : Str) (st : BatchStatus) (fs : FS)
    (hN : fileStatusAt st setNr fileNr = some .notStartedYet) :
    List.Chain' stepOK (st :: (processFile o set now setNr fileNr infile st fs).2.2) ∧
    ((processFile o set now setNr fileNr infile st fs).2.2).getLastD st =
      (processFile o set now setNr fileNr infile st fs).1 ∧
    (∀ i j, ¬(i = setNr ∧ j = fileNr) →
      fileStatusAt (processFile o set now setNr fileNr infile st fs).1 i j =
        fileStatusAt st i j) ∧
    (∃ c, terminalStatus c ∧
      fileStatusAt (processFile o set now setNr fileNr infile st fs).1 setNr fileNr =
        some c) ∧
    (processFile o set now setNr fileNr infile st fs).1.length = st.length := by
  have hpres : ∀ (v : Str) (i' j' : Nat),
      fileStatusAt (updateFileStatus st setNr fileNr (fun f => { f with outputFile := v }))
        i' j' = fileStatusAt st i' j' :=
    fun v => fileStatusAt_update_preserve st setNr fileNr _ (fun f => rfl)
  unfold processFile
  dsimp only
  split
  · -- skipped
    refine ⟨?_, rfl, ?_, ⟨.skipped, Or.inl rfl, ?_⟩, ?_⟩
    · refine List.chain'_pair.mpr ?_
      refine stepOK_of_single _ _ setNr fileNr .notStartedYet .skipped ?_ hN ?_ ?_
      · intro i' j' hij
        rw [fileStatusAt_update _ _ _ _ (fun _ => ConversionStatus.skipped) (fun f => rfl),
          if_neg (fun hc => hij ⟨hc.1.symm, hc.2.symm⟩), hpres]
      · rw [fileStatusAt_update _ _ _ _ (fun _ => ConversionStatus.skipped) (fun f => rfl),
          if_pos ⟨rfl, rfl⟩, hpres, hN]
        rfl
      · exact Or.inr (Or.inl ⟨rfl, Or.inl rfl⟩)
    · intro i j hij
      rw [fileStatusAt_update _ _ _ _ (fun _ => ConversionStatus.skipped) (fun f => rfl),
        if_neg (fun hc => hij ⟨hc.1.symm, hc.2.symm⟩), hpres]
    · rw [fileStatusAt_update _ _ _ _ (fun _ => ConversionStatus.skipped) (fun f => rfl),
        if_pos ⟨rfl, rfl⟩, hpres, hN]
      rfl
    · rw [updateFileStatus_length, updateFileStatus_length]
  · -- not skipped: parse
    split
    · -- conversion error
      refine ⟨?_, rfl, ?_, ⟨.conversionError, Or.inr (Or.inl rfl), ?_⟩, ?_⟩
      · refine List.Chain'.cons ?_ (List.chain'_pair.mpr ?_)
        · refine stepOK_of_single _ _ setNr fileNr .notStartedYet .conversionInProgress
            ?_ hN ?_ ?_
          · intro i' j' hij
            rw [fileStatusAt_update _ _ _ _ (fun _ => ConversionStatus.conversionInProgress)
              (fun f => rfl), if_neg (fun hc => hij ⟨hc.1.symm, hc.2.symm⟩), hpres]
          · rw [fileStatusAt_update _ _ _ _ (fun _ => ConversionStatus.conversionInProgress)
              (fun f => rfl), if_pos ⟨rfl, rfl⟩, hpres, hN]
            rfl
          · exact Or.inr (Or.inl ⟨rfl, Or.inr rfl⟩)
        · refine stepOK_of_single _ _ setNr fileNr .conversionInProgress .conversionError
            ?_ ?_ ?_ ?_
          · intro i' j' hij
            rw [fileStatusAt_update _ _ _ _ (fun _ => ConversionStatus.conversionError)
              (fun f => rfl), if_neg (fun hc => hij ⟨hc.1.symm, hc.2.symm⟩)]
          · rw [fileStatusAt_update _ _ _ _ (fun _ => ConversionStatus.conversionInProgress)
              (fun f => rfl), if_pos ⟨rfl, rfl⟩, hpres, hN]
            rfl
          · rw [fileStatusAt_update _ _ _ _ (fun _ => ConversionStatus.conversionError)
              (fun f => rfl), if_pos ⟨rfl, rfl⟩,
              fileStatusAt_update _ _ _ _ (fun _ => ConversionStatus.conversionInProgress)
              (fun f => rfl), if_pos ⟨rfl, rfl⟩, hpres, hN]
            rfl
          · exact Or.inr (Or.inr ⟨rfl, Or.inl rfl⟩)
      · intro i j hij
        rw [fileStatusAt_update _ _ _ _ (fun _ => ConversionStatus.conversionError)
          (fun f => rfl), if_neg (fun hc => hij ⟨hc.1.symm, hc.2.symm⟩),
          fileStatusAt_update _ _ _ _ (fun _ => ConversionStatus.conversionInProgress)
          (fun f => rfl), if_neg (fun hc => hij ⟨hc.1.symm, hc.2.symm⟩), hpres]
      · rw [fileStatusAt_update _ _ _ _ (fun _ => ConversionStatus.conversionError)
          (fun f => rfl), if_pos ⟨rfl, rfl⟩,
          fileStatusAt_update _ _ _ _ (fun _ => ConversionStatus.conversionInProgress)
          (fun f => rfl), if_pos ⟨rfl, rfl⟩, hpres, hN]
        rfl
      · rw [updateFileStatus_length, updateFileStatus_length, updateFileStatus_length]
    · -- conversion success
      rename_i p heqp
      refine ⟨?_, rfl, ?_, ⟨.conversionSuccess, Or.inr (Or.inr rfl), ?_⟩, ?_⟩
      · refine List.Chain'.cons ?_ (List.chain'_pair.mpr ?_)
        · refine stepOK_of_single _ _ setNr fileNr .notStartedYet .conversionInProgress
            ?_ hN ?_ ?_
          · intro i' j' hij
            rw [fileStatusAt_update _ _ _ _ (fun _ => ConversionStatus.conversionInProgress)
              (fun f => rfl), if_neg (fun hc => hij ⟨hc.1.symm, hc.2.symm⟩), hpres]
          · rw [fileStatusAt_update _ _ _ _ (fun _ => ConversionStatus.conversionInProgress)
              (fun f => rfl), if_pos ⟨rfl, rfl⟩, hpres, hN]
            rfl
          · exact Or.inr (Or.inl ⟨rfl, Or.inr rfl⟩)
        · refine stepOK_of_single _ _ setNr fileNr .conversionInProgress .conversionSuccess
            ?_ ?_ ?_ ?_
          · intro i' j' hij
            rw [fileStatusAt_update _ _ _ _ (fun _ => ConversionStatus.conversionSuccess)
              (fun f => rfl), if_neg (fun hc => hij ⟨hc.1.symm, hc.2.symm⟩),
              fileStatusAt_update_preserve _ setNr fileNr (fun f => { f with format := some p.getFormat }) (fun f => rfl)]
          · rw [fileStatusAt_update _ _ _ _ (fun _ => ConversionStatus.conversionInProgress)
              (fun f => rfl), if_pos ⟨rfl, rfl⟩, hpres, hN]
            rfl
          · rw [fileStatusAt_update _ _ _ _ (fun _ => ConversionStatus.conversionSuccess)
              (fun f => rfl), if_pos ⟨rfl, rfl⟩,
              fileStatusAt_update_preserve _ setNr fileNr (fun f => { f with format := some p.getFormat }) (fun f => rfl),
              fileStatusAt_update _ _ _ _ (fun _ => ConversionStatus.conversionInProgress)
              (fun f => rfl), if_pos ⟨rfl, rfl⟩, hpres, hN]
            rfl
          · exact Or.inr (Or.inr ⟨rfl, Or.inr rfl⟩)
      · intro i j hij
        rw [fileStatusAt_update _ _ _ _ (fun _ => ConversionStatus.conversionSuccess)
          (fun f => rfl), if_neg (fun hc => hij ⟨hc.1.symm, hc.2.symm⟩),
          fileStatusAt_update_preserve _ setNr fileNr (fun f => { f with format := some p.getFormat }) (fun f => rfl),
          fileStatusAt_update _ _ _ _ (fun _ => ConversionStatus.conversionInProgress)
          (fun f => rfl), if_neg (fun hc => hij ⟨hc.1.symm, hc.2.symm⟩), hpres]
      · rw [fileStatusAt_update _ _ _ _ (fun _ => ConversionStatus.conversionSuccess)
          (fun f => rfl), if_pos ⟨rfl, rfl⟩,
          fileStatusAt_update_preserve _ setNr fileNr (fun f => { f with format := some p.getFormat }) (fun f => rfl),
          fileStatusAt_update _ _ _ _ (fun _ => ConversionStatus.conversionInProgress)
          (fun f => rfl), if_pos ⟨rfl, rfl⟩, hpres, hN]
        rfl
      · rw [updateFileStatus_length, updateFileStatus_length, updateFileStatus_length,
          updateFileStatus_length]

end HomebankCsv

namespace HomebankCsv

open GoStr GoPath GoNum

theorem processFiles_trace (o : List SourceFormat) (set : BatchConvertSet) (now : Int)
    (setNr : Nat) :
    ∀ (files : List Str) (fileNr : Nat) (st : BatchStatus) (fs : FS),
      (∀ k, k < files.length →
        fileStatusAt st setNr (fileNr + k) = some .notStartedYet) →
      List.Chain' stepOK (st :: (processFiles o set now setNr files fileNr st fs).2.2) ∧
      ((processFiles o set now setNr files fileNr st fs).2.2).getLastD st =
        (processFiles o set now setNr files fileNr st fs).1 ∧
      (∀ i j, (i ≠ setNr ∨ j < fileNr ∨ fileNr + files.length ≤ j) →
        fileStatusAt (processFiles o set now setNr files fileNr st fs).1 i j =
          fileStatusAt st i j) ∧
      (∀ k, k < files.length → ∃ c, terminalStatus c ∧
        fileStatusAt (processFiles o set now setNr files fileNr st fs).1 setNr
          (fileNr + k) = some c) ∧
      (processFiles o set now setNr files fileNr st fs).1.length = st.length := by
  intro files
  induction files with
  | nil =>
    intro fileNr st fs _
    exact ⟨List.chain'_singleton st, rfl, fun i j _ => rfl,
      fun k hk => absurd hk (by simp), rfl⟩
  | cons f rest ih =>
    intro fileNr st fs hpend
    have hN : fileStatusAt st setNr fileNr = some .notStartedYet := by
      simpa using hpend 0 (by simp)
    obtain ⟨hchain1, hlast1, hother1, hterm1, hlen1⟩ :=
      processFile_trace o set now setNr fileNr f st fs hN
    have hpend2 : ∀ k, k < rest.length →
        fileStatusAt (processFile o set now setNr fileNr f st fs).1 setNr
          (fileNr + 1 + k) = some .notStartedYet := by
      intro k hk
      rw [hother1 setNr (fileNr + 1 + k) (fun hc => by omega)]
      have := hpend (k + 1) (by simpa using Nat.succ_lt_succ hk)
      rw [show fileNr + 1 + k = fileNr + (k + 1) by omega]
      exact this
    obtain ⟨hchain2, hlast2, hother2, hterm2, hlen2⟩ :=
      ih (fileNr + 1) (processFile o set now setNr fileNr f st fs).1
        (processFile o set now setNr fileNr f st fs).2.1 hpend2
    have hres : processFiles o set now setNr (f :: rest) fileNr st fs =
        ((processFiles o set now setNr rest (fileNr + 1)
            (processFile o set now setNr fileNr f st fs).1
            (processFile o set now setNr fileNr f st fs).2.1).1,
         (processFiles o set now setNr rest (fileNr + 1)
            (processFile o set now setNr fileNr f st fs).1
            (processFile o set now setNr fileNr f st fs).2.1).2.1,
         (processFile o set now setNr fileNr f st fs).2.2 ++
           (processFiles o set now setNr rest (fileNr + 1)
              (processFile o set now setNr fileNr f st fs).1
              (processFile o set now setNr fileNr f st fs).2.1).2.2) := rfl
    rw [hres]
    refine ⟨?_, ?_, ?_, ?_, ?_⟩
    · rw [show st :: ((processFile o set now setNr fileNr f st fs).2.2 ++
          (processFiles o set now setNr rest (fileNr + 1)
            (processFile o set now setNr fileNr f st fs).1
            (processFile o set now setNr fileNr f st fs).2.1).2.2) =
        (st :: (processFile o set now setNr fileNr f st fs).2.2) ++
          (processFiles o set now setNr rest (fileNr + 1)
            (processFile o set now setNr fileNr f st fs).1
            (processFile o set now setNr fileNr f st fs).2.1).2.2 from rfl,
        List.chain'_append]
      refine ⟨hchain1, hchain2.tail, ?_⟩
      intro x hx y hy
      rw [getLast?_cons_eq_getLastD, Option.mem_def, Option.some_inj] at hx
      rw [← hx, hlast1]
      exact (List.chain'_cons'.mp hchain2).1 y hy
    · rw [getLastD_append, hlast1, hlast2]
    · intro i j hij
      have hcond2 : i ≠ setNr ∨ j < fileNr + 1 ∨ fileNr + 1 + rest.length ≤ j := by
        rcases hij with h | h | h
        · exact Or.inl h
        · exact Or.inr (Or.inl (by omega))
        · refine Or.inr (Or.inr ?_)
          simp only [List.length_cons] at h
          omega
      have hcond1 : ¬(i = setNr ∧ j = fileNr) := by
        rcases hij with h | h | h
        · exact fun hc => h hc.1
        · exact fun hc => by omega
        · intro hc
          simp only [List.length_cons] at h
          omega
      rw [hother2 i j hcond2, hother1 i j hcond1]
    · intro k hk
      cases k with
      | zero =>
        obtain ⟨c, hcterm, hc⟩ := hterm1
        refine ⟨c, hcterm, ?_⟩
        rw [hother2 setNr (fileNr + 0) (Or.inr (Or.inl (by omega)))]
        simpa using hc
      | succ k2 =>
        obtain ⟨c, hcterm, hc⟩ := hterm2 k2 (by simpa using Nat.lt_of_succ_lt_succ hk)
        refine ⟨c, hcterm, ?_⟩
        rw [show fileNr + (k2 + 1) = fileNr + 1 + k2 by omega]
        exact hc
    · rw [hlen2, hlen1]

end HomebankCsv

namespace HomebankCsv

open GoStr GoPath GoNum

theorem fileStatusAt_discovery (st : BatchStatus) (nm : Str) (fileList : List Str)
    (setNr : Nat) (hlen : st.length = setNr) (i j : Nat) :
    fileStatusAt (modifyAt (st ++ [{ files := [], name := nm }]) setNr
      (fun bss => { bss with files := fileList.map (fun infile =>
        { inputFile := infile, outputFile := [], status := ConversionStatus.notStartedYet,
          format := none }) })) i j =
      if i = setNr then (if j < fileList.length then some .notStartedYet else none)
      else fileStatusAt st i j := by
  unfold fileStatusAt
  rw [modifyAt_getElem?]
  by_cases hi : setNr = i
  · subst hi
    rw [if_pos rfl, if_pos rfl, ← hlen, List.getElem?_concat_length]
    simp only [Option.map_some', Option.some_bind, List.getElem?_map]
    by_cases hj : j < fileList.length
    · rw [List.getElem?_eq_getElem hj, if_pos hj]
      rfl
    · rw [List.getElem?_eq_none (by omega), if_neg hj]
      rfl
  · rw [if_neg hi, if_neg (fun h => hi h.symm)]
    by_cases hilt : i < st.length
    · rw [List.getElem?_append_left hilt]
    · rw [List.getElem?_eq_none (by simp; omega), List.getElem?_eq_none (by omega)]

theorem fileStatusAt_append_empty (st : BatchStatus) (nm : Str) (i j : Nat) (c) :
    fileStatusAt (st ++ [{ files := [], name := nm }]) i j = some c →
    fileStatusAt st i j = some c := by
  intro h
  by_cases hi : i < st.length
  · rwa [fileStatusAt_append_left st _ i j hi] at h
  · exfalso
    unfold fileStatusAt at h
    by_cases hie : i = st.length
    · subst hie
      rw [List.getElem?_concat_length] at h
      simp at h
    · rw [List.getElem?_eq_none (by simp; omega)] at h
      simp at h

theorem processSets_trace (o : List SourceFormat) (now : Int) :
    ∀ (sets : List BatchConvertSet) (setNr : Nat) (st : BatchStatus) (fs : FS),
      st.length = setNr →
      (∀ i j c, fileStatusAt st i j = some c → terminalStatus c) →
      List.Chain' stepOK (st :: (processSets o now sets setNr st fs).trace) ∧
      (∀ i j c, fileStatusAt (processSets o now sets setNr st fs).status i j = some c →
        terminalStatus c) := by
  intro sets
  induction sets with
  | nil =>
    intro setNr st fs _ hterm
    exact ⟨List.chain'_singleton st, hterm⟩
  | cons set rest ih =>
    intro setNr st fs hlen hterm
    rw [processSets]
    split
    · exact ⟨List.chain'_singleton st, hterm⟩
    · exact ⟨List.chain'_singleton st, hterm⟩
    · split
      · exact ⟨List.chain'_singleton st,
          fun i j c hc => hterm i j c (fileStatusAt_append_empty st _ i j c hc)⟩
      · rename_i htrue fileList hfind
        have hdisc := fileStatusAt_discovery st set.name fileList setNr hlen
        have hpend : ∀ k, k < fileList.length →
            fileStatusAt (modifyAt (st ++ [{ files := [], name := set.name }]) setNr
              (fun bss => { bss with files := fileList.map (fun infile =>
                { inputFile := infile, outputFile := [],
                  status := ConversionStatus.notStartedYet, format := none }) }))
              setNr (0 + k) = some .notStartedYet := by
          intro k hk
          rw [hdisc setNr (0 + k), if_pos rfl, if_pos (by omega)]
        obtain ⟨hchainF, hlastF, hotherF, htermF, hlenF⟩ :=
          processFiles_trace o set now setNr fileList 0 _ fs hpend
        have hlen2 : (processFiles o set now setNr fileList 0
            (modifyAt (st ++ [{ files := [], name := set.name }]) setNr
              (fun bss => { bss with files := fileList.map (fun infile =>
                { inputFile := infile, outputFile := [],
                  status := ConversionStatus.notStartedYet, format := none }) })) fs).1.length =
            setNr + 1 := by
          rw [hlenF, modifyAt_length]
          simp [hlen]
        have hterm2 : ∀ i j c,
            fileStatusAt (processFiles o set now setNr fileList 0
              (modifyAt (st ++ [{ files := [], name := set.name }]) setNr
                (fun bss => { bss with files := fileList.map (fun infile =>
                  { inputFile := infile, outputFile := [],
                    status := ConversionStatus.notStartedYet, format := none }) })) fs).1 i j =
              some c → terminalStatus c := by
          intro i j c hc
          by_cases hij : i = setNr ∧ j < fileList.length
          · obtain ⟨rfl, hj⟩ := hij
            obtain ⟨c2, hc2term, hc2⟩ := htermF j hj
            rw [show (0 : Nat) + j = j by omega] at hc2
            rw [hc2] at hc
            cases hc
            exact hc2term
          · have hcond : i ≠ setNr ∨ j < 0 ∨ 0 + fileList.length ≤ j := by
              by_cases hi : i = setNr
              · subst hi
                refine Or.inr (Or.inr ?_)
                omega
              · exact Or.inl hi
            rw [hotherF i j hcond, hdisc i j] at hc
            by_cases hi : i = setNr
            · subst hi
              rw [if_pos rfl] at hc
              split at hc
              · rename_i hjlt
                exact absurd ⟨rfl, hjlt⟩ hij
              · cases hc
            · rw [if_neg hi] at hc
              exact hterm i j c hc
        obtain ⟨hchainR, htermR⟩ := ih (setNr + 1) _ _ hlen2 hterm2
        constructor
        · rw [show st :: ((modifyAt (st ++ [{ files := [], name := set.name }]) setNr
              (fun bss => { bss with files := fileList.map (fun infile =>
                { inputFile := infile, outputFile := [],
                  status := ConversionStatus.notStartedYet, format := none }) }) ::
              (processFiles o set now setNr fileList 0
                (modifyAt (st ++ [{ files := [], name := set.name }]) setNr
                  (fun bss => { bss with files := fileList.map (fun infile =>
                    { inputFile := infile, outputFile := [],
                      status := ConversionStatus.notStartedYet, format := none }) })) fs).2.2) ++
              (processSets o now rest (setNr + 1) _ _).trace) =
            (st :: modifyAt (st ++ [{ files := [], name := set.name }]) setNr
              (fun bss => { bss with files := fileList.map (fun infile =>
                { inputFile := infile, outputFile := [],
                  status := ConversionStatus.notStartedYet, format := none }) }) ::
              (processFiles o set now setNr fileList 0
                (modifyAt (st ++ [{ files := [], name := set.name }]) setNr
                  (fun bss => { bss with files := fileList.map (fun infile =>
                    { inputFile := infile, outputFile := [],
                      status := ConversionStatus.notStartedYet, format := none }) })) fs).2.2) ++
              (processSets o now rest (setNr + 1) _ _).trace from rfl,
            List.chain'_append]
          refine ⟨?_, hchainR.tail, ?_⟩
          · refine List.chain'_cons.mpr ⟨?_, hchainF⟩
            intro i j b hb
            rw [hdisc i j] at hb
            by_cases hi : i = setNr
            · rw [if_pos hi] at hb
              split at hb
              · cases hb
                have hnone : fileStatusAt st i j = none := by
                  unfold fileStatusAt
                  rw [List.getElem?_eq_none (by omega)]
                  rfl
                simp only [hnone]
              · cases hb
            · rw [if_neg hi] at hb
              simp only [hb]
              exact Or.inl rfl
          · intro x hx y hy
            rw [getLast?_cons_eq_getLastD, Option.mem_def, Option.some_inj,
              List.getLastD_cons, hlastF] at hx
            rw [← hx]
            exact (List.chain'_cons'.mp hchainR).1 y hy
        · exact htermR

end HomebankCsv

namespace HomebankCsv

open GoStr GoPath GoNum

/-- C5: across the snapshots emitted to the callback during one
`BatchConvert` run, every file's status follows exactly one of the
chains `NotStarted → Skipped` or
`NotStarted → InProgress → (Error | Success)`: consecutive snapshots
only ever show an allowed edge (or no change), a file first appears
as NotStarted, a terminal status (Skipped, Error, Success) never
changes again, and in the returned status tree every file is
terminal. -/
theorem batchStatus_transitions (order : List SourceFormat) (s : BatchConvertSettings)
    (now : Int) (env : Env) (fs : FS) :
    List.Chain' stepOK (batchConvert order s now env fs).2.2.1 ∧
    (∀ hd, (batchConvert order s now env fs).2.2.1.head? = some hd →
      ∀ i j b, fileStatusAt hd i j = some b → b = .notStartedYet) ∧
    (∀ st, (batchConvert order s now env fs).1 = some st →
      ∀ i j c, fileStatusAt st i j = some c → terminalStatus c) := by
  unfold batchConvert
  split
  · refine ⟨List.chain'_nil, ?_, ?_⟩
    · intro hd h
      cases h
    · intro st h
      cases h
  · split
    · refine ⟨List.chain'_nil, ?_, ?_⟩
      · intro hd h
        cases h
      · intro st h
        cases h
    · rename_i nsets hns
      split
      · refine ⟨List.chain'_nil, ?_, ?_⟩
        · intro hd h
          cases h
        · intro st h
          cases h
      · obtain ⟨hchain, hterm⟩ := processSets_trace order now nsets 0 [] fs rfl
          (fun i j c hc => by simp [fileStatusAt] at hc)
        refine ⟨hchain.tail, ?_, ?_⟩
        · intro hd hhd i j b hb
          have hhd' : (processSets order now nsets 0 [] fs).trace.head? = some hd := hhd
          rcases htr : (processSets order now nsets 0 [] fs).trace with _ | ⟨t, rest⟩
          · rw [htr] at hhd'
            cases hhd'
          · rw [htr] at hhd'
            rw [List.head?_cons, Option.some_inj] at hhd'
            subst hhd'
            rw [htr] at hchain
            have hstep := (List.chain'_cons.mp hchain).1
            have := hstep i j b hb
            simpa [fileStatusAt] using this
        · intro st hst i j c hc
          rw [Option.some_inj] at hst
          subst hst
          exact hterm i j c hc

/-- A concrete one-set batch configuration: read CSV files from `/in`
with the fixed Volksbank format, write to `/out`. -/
def c5Settings : BatchConvertSettings :=
  ⟨[⟨"s1".toList, "/in".toList, "/out".toList, some Volksbank, [], 0⟩]⟩

/-- A concrete filesystem: `/in` holds one unparseable file `a.csv`. -/
def c5Fs : FS :=
  { dirs := ["/in".toList, "/out".toList],
    files := [⟨"/in".toList, "a.csv".toList, .text ["garbage".toList], 5⟩] }

/-- Witness for C5 at a concrete run: the returned status of a
one-set, one-unparseable-file run is terminal at its only position. -/
theorem batchStatus_transitions_witness :
    fileStatusAt
        ((batchConvert [] c5Settings 10 ⟨"/h".toList, [], []⟩ c5Fs).1.getD []) 0 0
      = some ConversionStatus.conversionError ∧
    terminalStatus ConversionStatus.conversionError :=
  ⟨by decide,
    (batchStatus_transitions [] c5Settings 10 ⟨"/h".toList, [], []⟩ c5Fs).2.2
      _ rfl 0 0 ConversionStatus.conversionError (by decide)⟩

end HomebankCsv

namespace HomebankCsv

open GoStr GoPath GoNum

/-! ## Claim C4: per-file failures never set the run error -/

/-- Processing one file never touches the directory set. -/
theorem processFile_dirs (order : List SourceFormat) (set : BatchConvertSet)
    (now : Int) (setNr fileNr : Nat) (infile : Str) (st : BatchStatus) (fs : FS) :
    (processFile order set now setNr fileNr infile st fs).2.1.dirs = fs.dirs := by
  unfold processFile
  dsimp only
  split
  · rfl
  · split
    · rfl
    · rfl

/-- Processing a file list never touches the directory set. -/
theorem processFiles_dirs (order : List SourceFormat) (set : BatchConvertSet)
    (now : Int) (setNr : Nat) (files : List Str) :
    ∀ (fileNr : Nat) (st : BatchStatus) (fs : FS),
      (processFiles order set now setNr files fileNr st fs).2.1.dirs = fs.dirs := by
  induction files with
  | nil => intro fileNr st fs; rfl
  | cons infile rest ih =>
    intro fileNr st fs
    unfold processFiles
    dsimp only
    rw [ih, processFile_dirs]

/-- Every member of a list accepted by the `CheckValidity` loop passes
the per-set validity check. -/
theorem checkValiditySetsLoop_mem (l : List BatchConvertSet) :
    ∀ (names combos : List Str),
      checkValiditySetsLoop l names combos = Except.ok () →
      ∀ set ∈ l, checkValiditySet set = Except.ok () := by
  induction l with
  | nil => intro names combos _ set hmem; exact absurd hmem (List.not_mem_nil set)
  | cons entry rest ih =>
    intro names combos h set hmem
    unfold checkValiditySetsLoop at h
    split at h
    · cases h
    · rename_i u heq
      split at h
      · cases h
      · dsimp only at h
        split at h
        · cases h
        · rcases List.mem_cons.mp hmem with hmem | hmem
          · cases u
            rw [hmem]
            exact heq
          · exact ih _ _ h set hmem

/-- A set whose per-set validity check passes has a compilable glob
pattern. -/
theorem checkValiditySet_glob (set : BatchConvertSet)
    (h : checkValiditySet set = Except.ok ()) :
    isFileGlobPatternValid set.fileGlobPattern = true := by
  unfold checkValiditySet at h
  split at h
  · cases h
  · split at h
    · cases h
    · split at h
      · cases h
      · split at h
        · cases h
        · split at h
          · cases h
          · split at h
            · cases h
            · rename_i hv
              exact not_not.mp hv

/-- `findFiles` succeeds whenever the configured glob pattern is
valid. -/
theorem findFiles_ok (fs : FS) (inputDir pat : Str) (t : Option Int)
    (h : isFileGlobPatternValid pat = true) :
    ∃ l, findFiles fs inputDir pat t = Except.ok l := by
  unfold findFiles
  by_cases hin : inputDir = []
  · rw [if_pos hin]
    exact ⟨[], rfl⟩
  · rw [if_neg hin]
    have hval : isFileGlobPatternValid (if pat = [] then ['*'] else pat) = true := by
      by_cases hpat : pat = []
      · rw [if_pos hpat]
        decide
      · rw [if_neg hpat]
        exact h
    exact ⟨_, if_neg (not_not_intro hval)⟩

/-- The per-set loop returns a `nil` run error whenever every remaining
set's output directory exists and every remaining set passes the
per-set validity check; per-file conversion failures inside
`processFiles` never contribute to the run error. -/
theorem processSets_err_none (order : List SourceFormat) (now : Int)
    (sets : List BatchConvertSet) :
    ∀ (setNr : Nat) (st : BatchStatus) (fs : FS),
      (∀ set ∈ sets, fs.dirs.contains set.outputDir = true ∧
        checkValiditySet set = Except.ok ()) →
      (processSets order now sets setNr st fs).err = none := by
  induction sets with
  | nil => intro setNr st fs _; rfl
  | cons set rest ih =>
    intro setNr st fs h
    have hset := h set (List.mem_cons_self set rest)
    have hstat : statKind fs set.outputDir = some true := by
      unfold statKind
      rw [if_pos hset.1]
    have hglob := checkValiditySet_glob set hset.2
    obtain ⟨fileList, hff⟩ := findFiles_ok fs set.inputDir set.fileGlobPattern
      (getTimeFromMaxAgeDays set.fileMaxAgeDays.toNat now) hglob
    unfold processSets
    rw [hstat, hff]
    dsimp only
    exact ih (setNr + 1) _ _ (fun s2 hs2 =>
      ⟨by rw [processFiles_dirs]; exact (h s2 (List.mem_cons_of_mem set hs2)).1,
       (h s2 (List.mem_cons_of_mem set hs2)).2⟩)

end HomebankCsv

namespace HomebankCsv

open GoStr GoPath GoNum

/-- C4: for a run whose configuration passes normalization and the
validity checks and whose sets' output directories all exist, the
overall error returned by `BatchConvert` is nil, whatever happens to
the individual files: per-file conversion failures are reported only
through the status tree, and a non-nil run error can arise only from
the configuration checks or from filesystem-level failures (a missing
or non-directory output path, a glob error).  The witness instantiates
this at a set containing one malformed and one well-formed file: the
former ends with status Error, the latter with status Success in the
same run, and the run error is nil. -/
theorem batchConvert_err_none (order : List SourceFormat)
    (s : BatchConvertSettings) (now : Int) (env : Env) (fs : FS)
    (nsets : List BatchConvertSet)
    (hn : ¬ s.sets.length = 0)
    (hns : normalizeSets env s.sets = Except.ok nsets)
    (hcv : checkValiditySets nsets = Except.ok ())
    (hdirs : ∀ set ∈ nsets, fs.dirs.contains set.outputDir = true) :
    (batchConvert order s now env fs).2.2.2 = none := by
  unfold batchConvert
  rw [if_neg hn, hns]
  dsimp only
  rw [hcv]
  dsimp only
  exact processSets_err_none order now nsets 0 [] fs (fun set hset =>
    ⟨hdirs set hset, checkValiditySetsLoop_mem nsets [] [] hcv set hset⟩)

/-- A concrete one-set batch configuration with two input files. -/
def c4Settings : BatchConvertSettings :=
  ⟨[⟨"s1".toList, "/in".toList, "/out".toList, some Volksbank, [], 0⟩]⟩

/-- A concrete filesystem: `/in` holds the malformed `a.csv` and the
well-formed (header-only Volksbank CSV) `b.csv`. -/
def c4Fs : FS :=
  { dirs := ["/in".toList, "/out".toList],
    files := [⟨"/in".toList, "a.csv".toList, .text ["garbage".toList], 5⟩,
      ⟨"/in".toList, "b.csv".toList,
        .text [("Bezeichnung Auftragskonto;IBAN Auftragskonto;" ++
          "BIC Auftragskonto;Bankname Auftragskonto;Buchungstag;Valutadatum;" ++
          "Name Zahlungsbeteiligter;IBAN Zahlungsbeteiligter;" ++
          "BIC (SWIFT-Code) Zahlungsbeteiligter;Buchungstext;Verwendungszweck;" ++
          "Betrag;Waehrung;Saldo nach Buchung;Bemerkung;" ++
          "Gekennzeichneter Umsatz;Glaeubiger ID;Mandatsreferenz").toList], 5⟩] }

/-- Witness for C4: in the concrete two-file run the malformed file
ends with status Error, the well-formed file with status Success, and
the overall run error is nil (the latter via the theorem). -/
theorem batchConvert_err_none_witness :
    fileStatusAt ((batchConvert [] c4Settings 10 ⟨"/h".toList, [], []⟩ c4Fs).1.getD []) 0 0
        = some ConversionStatus.conversionError ∧
    fileStatusAt ((batchConvert [] c4Settings 10 ⟨"/h".toList, [], []⟩ c4Fs).1.getD []) 0 1
        = some ConversionStatus.conversionSuccess ∧
    (batchConvert [] c4Settings 10 ⟨"/h".toList, [], []⟩ c4Fs).2.2.2 = none :=
  ⟨by decide, by decide,
    batchConvert_err_none [] c4Settings 10 ⟨"/h".toList, [], []⟩ c4Fs
      c4Settings.sets (by decide) rfl rfl (by decide)⟩

end HomebankCsv

namespace HomebankCsv

open GoStr GoPath GoNum

/-! ## Claim C3: a second batch run over unchanged directories -/

/-- `filepath.Base` never returns a component containing a slash. -/
theorem pathBase_no_slash (s : Str) : '/' ∉ pathBase s := by
  intro hmem
  unfold pathBase at hmem
  rw [List.mem_reverse] at hmem
  have := List.mem_takeWhile_imp hmem
  simp at this

/-- Output base names are slash-free. -/
theorem outfileBase_no_slash (infile : Str) : '/' ∉ outfileBase infile :=
  pathBase_no_slash _

/-- Splitting a list at an element absent from both suffixes is
unambiguous. -/
theorem append_cons_eq_of_not_mem {α : Type} (c : α) :
    ∀ (d1 b1 d2 b2 : List α), c ∉ b1 → c ∉ b2 →
      d1 ++ c :: b1 = d2 ++ c :: b2 → d1 = d2 ∧ b1 = b2 := by
  intro d1
  induction d1 with
  | nil =>
    intro b1 d2 b2 h1 h2 heq
    cases d2 with
    | nil => simpa using heq
    | cons y d2 =>
      exfalso
      simp only [List.nil_append, List.cons_append, List.cons.injEq] at heq
      apply h1
      rw [heq.2]
      exact List.mem_append_right d2 (List.mem_cons_self c b2)
  | cons x d1 ih =>
    intro b1 d2 b2 h1 h2 heq
    cases d2 with
    | nil =>
      exfalso
      simp only [List.cons_append, List.nil_append, List.cons.injEq] at heq
      apply h2
      rw [← heq.2]
      exact List.mem_append_right d1 (List.mem_cons_self c b1)
    | cons y d2 =>
      simp only [List.cons_append, List.cons.injEq] at heq
      obtain ⟨hxy, htl⟩ := heq
      obtain ⟨hd, hb⟩ := ih b1 d2 b2 h1 h2 htl
      exact ⟨by rw [hxy, hd], hb⟩

/-- `filepath.Join` is injective on slash-free base names. -/
theorem joinPath_inj {d1 b1 d2 b2 : Str} (h1 : '/' ∉ b1) (h2 : '/' ∉ b2)
    (h : joinPath d1 b1 = joinPath d2 b2) : d1 = d2 ∧ b1 = b2 := by
  unfold joinPath at h
  have h' : d1 ++ '/' :: b1 = d2 ++ '/' :: b2 := by simpa using h
  exact append_cons_eq_of_not_mem '/' d1 b1 d2 b2 h1 h2 h'

/-- Looking a joined path up in a file list with slash-free base names
is looking the base name up among the files of that directory. -/
theorem find?_joined (d b : Str) (hb : '/' ∉ b) :
    ∀ (l : List FSFile), (∀ f ∈ l, '/' ∉ f.base) →
      l.find? (fun f => joinPath f.dir f.base = joinPath d b) =
      (l.filter (fun f => f.dir = d)).find? (fun f => f.base = b) := by
  intro l
  induction l with
  | nil => intro _; rfl
  | cons f rest ih =>
    intro hall
    have hfb : '/' ∉ f.base := hall f (List.mem_cons_self f rest)
    have hrest := fun g hg => hall g (List.mem_cons_of_mem f hg)
    by_cases hd : f.dir = d
    · by_cases hbe : f.base = b
      · have hj : joinPath f.dir f.base = joinPath d b := by rw [hd, hbe]
        rw [List.find?_cons_of_pos rest (by simpa using hj),
          List.filter_cons_of_pos (by simpa using hd),
          List.find?_cons_of_pos _ (by simpa using hbe)]
      · have hne : ¬ joinPath f.dir f.base = joinPath d b :=
          fun hj => hbe (joinPath_inj hfb hb hj).2
        rw [List.find?_cons_of_neg rest (by simpa using hne),
          List.filter_cons_of_pos (by simpa using hd),
          List.find?_cons_of_neg _ (by simpa using hbe), ih hrest]
    · have hne : ¬ joinPath f.dir f.base = joinPath d b :=
        fun hj => hd (joinPath_inj hfb hb hj).1
      rw [List.find?_cons_of_neg rest (by simpa using hne),
        List.filter_cons_of_neg (by simpa using hd), ih hrest]

/-- Reads of a joined path only see the files of that directory. -/
theorem fsReadFile_joined (fs : FS) (d b : Str) (hb : '/' ∉ b)
    (hall : ∀ f ∈ fs.files, '/' ∉ f.base) :
    fsReadFile fs (joinPath d b) =
      ((fs.files.filter (fun f => f.dir = d)).find?
        (fun f => f.base = b)).map (fun f => f.data) := by
  unfold fsReadFile
  rw [find?_joined d b hb fs.files hall]

end HomebankCsv

namespace HomebankCsv

open GoStr GoPath GoNum

/-- Filtering by a weaker predicate first does not change a filter. -/
theorem filter_filter_of_imp {α : Type} (p q : α → Bool) :
    ∀ (l : List α), (∀ a ∈ l, p a = true → q a = true) →
      (l.filter q).filter p = l.filter p := by
  intro l
  induction l with
  | nil => intro _; rfl
  | cons x xs ih =>
    intro h
    have hx := h x (List.mem_cons_self x xs)
    have hxs := fun a ha hp => h a (List.mem_cons_of_mem x ha) hp
    by_cases hq : q x = true
    · rw [List.filter_cons_of_pos hq]
      by_cases hp : p x = true
      · rw [List.filter_cons_of_pos hp, List.filter_cons_of_pos hp, ih hxs]
      · rw [List.filter_cons_of_neg hp, List.filter_cons_of_neg hp, ih hxs]
    · have hp : ¬ p x = true := fun hp => hq (hx hp)
      rw [List.filter_cons_of_neg hq, List.filter_cons_of_neg hp, ih hxs]

/-- A write never touches the directory set. -/
theorem fsWriteFile_dirs (fs : FS) (dir base : Str) (data : FileData) (t : Int) :
    (fsWriteFile fs dir base data t).dirs = fs.dirs := rfl

/-- A write with a slash-free base name keeps all base names
slash-free. -/
theorem fsWriteFile_bases (fs : FS) (dir base : Str) (data : FileData) (t : Int)
    (hall : ∀ f ∈ fs.files, '/' ∉ f.base) (hb : '/' ∉ base) :
    ∀ f ∈ (fsWriteFile fs dir base data t).files, '/' ∉ f.base := by
  intro f hf
  unfold fsWriteFile at hf
  simp only [List.mem_append, List.mem_filter, List.mem_singleton] at hf
  rcases hf with ⟨hmem, _⟩ | heq
  · exact hall f hmem
  · rw [heq]
    exact hb

/-- A write leaves every other directory's file list unchanged. -/
theorem fsWriteFile_filter_dir (fs : FS) (dir base : Str) (data : FileData)
    (t : Int) (d : Str) (hd : d ≠ dir) :
    (fsWriteFile fs dir base data t).files.filter (fun f => f.dir = d) =
      fs.files.filter (fun f => f.dir = d) := by
  unfold fsWriteFile
  dsimp only
  rw [List.filter_append]
  have h1 : List.filter (fun f => decide (f.dir = d))
      ([⟨dir, base, data, t⟩] : List FSFile) = [] := by
    simp [Ne.symm hd]
  rw [h1, List.append_nil]
  apply filter_filter_of_imp
  intro f _ hp
  simp only [decide_eq_true_eq] at hp ⊢
  intro hc
  exact hd (by rw [← hp, hc.1])

/-- Existing paths keep existing across a write. -/
theorem statKind_isSome_write (fs : FS) (dir base : Str) (data : FileData)
    (t : Int) (p : Str) (h : (statKind fs p).isSome = true) :
    (statKind (fsWriteFile fs dir base data t) p).isSome = true := by
  unfold statKind at h ⊢
  rw [fsWriteFile_dirs]
  by_cases hdc : fs.dirs.contains p = true
  · rw [if_pos hdc]
    rfl
  · rw [if_neg hdc] at h ⊢
    split at h
    · rename_i hany
      have hany2 : (fsWriteFile fs dir base data t).files.any
          (fun f => joinPath f.dir f.base = p) = true := by
        rcases List.any_eq_true.mp hany with ⟨f, hf, hpf⟩
        apply List.any_eq_true.mpr
        by_cases hkeep : (decide ¬(f.dir = dir ∧ f.base = base)) = true
        · refine ⟨f, ?_, hpf⟩
          unfold fsWriteFile
          exact List.mem_append_left _ (List.mem_filter.mpr ⟨hf, hkeep⟩)
        · simp only [decide_eq_true_eq, not_not] at hkeep
          refine ⟨⟨dir, base, data, t⟩, ?_, ?_⟩
          · unfold fsWriteFile
            exact List.mem_append_right _ (List.mem_singleton.mpr rfl)
          · simp only [decide_eq_true_eq] at hpf ⊢
            rw [← hpf, hkeep.1, hkeep.2]
      rw [if_pos hany2]
      rfl
    · exact absurd h (by simp)

/-- The path written to exists after the write. -/
theorem statKind_write_target (fs : FS) (dir base : Str) (data : FileData)
    (t : Int) :
    (statKind (fsWriteFile fs dir base data t) (joinPath dir base)).isSome = true := by
  unfold statKind
  rw [fsWriteFile_dirs]
  by_cases hdc : fs.dirs.contains (joinPath dir base) = true
  · rw [if_pos hdc]
    rfl
  · rw [if_neg hdc]
    have hany : (fsWriteFile fs dir base data t).files.any
        (fun f => joinPath f.dir f.base = joinPath dir base) = true := by
      apply List.any_eq_true.mpr
      refine ⟨⟨dir, base, data, t⟩, ?_, by simp⟩
      unfold fsWriteFile
      exact List.mem_append_right _ (List.mem_singleton.mpr rfl)
    rw [if_pos hany]
    rfl

/-- Membership in the insertion step of `sort.Strings`. -/
theorem mem_insertSortedStr (x a : Str) :
    ∀ (l : List Str), a ∈ insertSortedStr x l ↔ a = x ∨ a ∈ l := by
  intro l
  induction l with
  | nil => simp [insertSortedStr]
  | cons y ys ih =>
    unfold insertSortedStr
    by_cases hle : strLeB x y = true
    · rw [if_pos hle]
      simp only [List.mem_cons]
    · rw [if_neg hle]
      simp only [List.mem_cons, ih]
      tauto

/-- Sorting preserves membership. -/
theorem mem_sortStrs (a : Str) :
    ∀ (l : List Str), a ∈ sortStrs l ↔ a ∈ l := by
  intro l
  induction l with
  | nil => simp [sortStrs]
  | cons x xs ih =>
    show a ∈ insertSortedStr x (sortStrs xs) ↔ _
    rw [mem_insertSortedStr, ih]
    simp [List.mem_cons]

end HomebankCsv

namespace HomebankCsv

open GoStr GoPath GoNum

/-- A conjunction filter only depends on the sublist selected by its
first conjunct. -/
theorem filter_and2_eq_of_filter_eq {α : Type} (A B C : α → Bool) (l l2 : List α)
    (h : l2.filter A = l.filter A) :
    l2.filter (fun a => (A a && B a) && C a) =
      l.filter (fun a => (A a && B a) && C a) := by
  have e : ∀ (m : List α), m.filter (fun a => (A a && B a) && C a) =
      (m.filter A).filter (fun a => B a && C a) := by
    intro m
    rw [List.filter_filter]
    apply List.filter_congr
    intro x _
    cases A x <;> cases B x <;> cases C x <;> rfl
  rw [e, e, h]

/-- `findFiles` only looks at the files of the input directory. -/
theorem findFiles_congr (fs fs2 : FS) (inputDir pat : Str) (t : Option Int)
    (h : fs2.files.filter (fun f => f.dir = inputDir) =
      fs.files.filter (fun f => f.dir = inputDir)) :
    findFiles fs2 inputDir pat t = findFiles fs inputDir pat t := by
  unfold findFiles
  by_cases hin : inputDir = []
  · rw [if_pos hin, if_pos hin]
  · rw [if_neg hin, if_neg hin]
    dsimp only
    split
    all_goals
      split
      · rfl
      · rw [filter_and2_eq_of_filter_eq (fun f => decide (f.dir = inputDir)) _ _
          fs.files fs2.files h]

/-- Every file returned by `findFiles` is a file of the input
directory, joined with its base name. -/
theorem findFiles_mem (fs : FS) (inputDir pat : Str) (t : Option Int) (l : List Str)
    (hok : findFiles fs inputDir pat t = Except.ok l) (x : Str) (hx : x ∈ l) :
    ∃ f ∈ fs.files, f.dir = inputDir ∧ x = joinPath inputDir f.base := by
  unfold findFiles at hok
  by_cases hin : inputDir = []
  · rw [if_pos hin] at hok
    injection hok with hok
    rw [← hok] at hx
    exact absurd hx (List.not_mem_nil x)
  · rw [if_neg hin] at hok
    dsimp only at hok
    split at hok
    all_goals
      split at hok
      · cases hok
      · injection hok with hok
        rw [← hok, mem_sortStrs] at hx
        rcases List.mem_map.mp hx with ⟨f, hfmem, hfx⟩
        rcases List.mem_filter.mp hfmem with ⟨hfs, hpred⟩
        have hdir : f.dir = inputDir := by
          have h1 := (Bool.and_eq_true _ _).mp hpred
          have h2 := (Bool.and_eq_true _ _).mp h1.1
          exact of_decide_eq_true h2.1
        exact ⟨f, hfs, hdir, by rw [← hfx, hdir]⟩

/-- Reads from another directory are unchanged by a write. -/
theorem fsReadFile_write (fs : FS) (od ob : Str) (data : FileData) (t : Int)
    (d b : Str) (hd : d ≠ od) (hb : '/' ∉ b) (hob : '/' ∉ ob)
    (hall : ∀ f ∈ fs.files, '/' ∉ f.base) :
    fsReadFile (fsWriteFile fs od ob data t) (joinPath d b) =
      fsReadFile fs (joinPath d b) := by
  rw [fsReadFile_joined _ d b hb (fsWriteFile_bases fs od ob data t hall hob),
    fsReadFile_joined fs d b hb hall, fsWriteFile_filter_dir fs od ob data t d hd]

/-- Processing one file preserves the shape of the status tree. -/
theorem processFile_length (order : List SourceFormat) (set : BatchConvertSet)
    (now : Int) (setNr fileNr : Nat) (infile : Str) (st : BatchStatus) (fs : FS) :
    (processFile order set now setNr fileNr infile st fs).1.length = st.length := by
  unfold processFile
  dsimp only
  split
  · rw [updateFileStatus_length, updateFileStatus_length]
  · split
    · rw [updateFileStatus_length, updateFileStatus_length, updateFileStatus_length]
    · rw [updateFileStatus_length, updateFileStatus_length, updateFileStatus_length,
        updateFileStatus_length]

/-- Processing a file list preserves the shape of the status tree. -/
theorem processFiles_length (order : List SourceFormat) (set : BatchConvertSet)
    (now : Int) (setNr : Nat) (files : List Str) :
    ∀ (fileNr : Nat) (st : BatchStatus) (fs : FS),
      (processFiles order set now setNr files fileNr st fs).1.length = st.length := by
  induction files with
  | nil => intro _ _ _; rfl
  | cons infile rest ih =>
    intro fileNr st fs
    unfold processFiles
    dsimp only
    rw [ih, processFile_length]

end HomebankCsv

namespace HomebankCsv

open GoStr GoPath GoNum

/-- The filesystem effect of processing one file: unchanged (the file
was skipped or failed) or a single write of the converted output. -/
theorem processFile_fs_spec (order : List SourceFormat) (set : BatchConvertSet)
    (now : Int) (setNr fileNr : Nat) (infile : Str) (st : BatchStatus) (fs : FS) :
    ((processFile order set now setNr fileNr infile st fs).2.1 = fs ∧
      ((statKind fs (outfileOf set infile)).isSome = true ∨
        selectParser order set (fsReadFile fs infile) = none)) ∨
    (∃ data, (processFile order set now setNr fileNr infile st fs).2.1 =
      fsWriteFile fs set.outputDir (outfileBase infile) data now) := by
  unfold processFile
  dsimp only
  split
  · exact Or.inl ⟨rfl, Or.inl (by assumption)⟩
  · split
    · exact Or.inl ⟨rfl, Or.inr (by assumption)⟩
    · exact Or.inr ⟨_, rfl⟩

/-- Forward analysis of run 1 over one set's file list: base names stay
slash-free, other directories' contents are untouched, existing paths
keep existing, and every processed input file either has its output
present at the end or fails parser selection against its original
content. -/
theorem processFiles_run1 (order : List SourceFormat) (set : BatchConvertSet)
    (now : Int) (setNr : Nat) (hio : set.inputDir ≠ set.outputDir)
    (files : List Str) :
    ∀ (fileNr : Nat) (st : BatchStatus) (fs : FS),
      (∀ f ∈ fs.files, '/' ∉ f.base) →
      (∀ infile ∈ files, ∃ b, infile = joinPath set.inputDir b ∧ '/' ∉ b) →
      (∀ f ∈ (processFiles order set now setNr files fileNr st fs).2.1.files,
        '/' ∉ f.base) ∧
      (∀ d, d ≠ set.outputDir →
        (processFiles order set now setNr files fileNr st fs).2.1.files.filter
            (fun f => f.dir = d) =
          fs.files.filter (fun f => f.dir = d)) ∧
      (∀ p, (statKind fs p).isSome = true →
        (statKind (processFiles order set now setNr files fileNr st fs).2.1
          p).isSome = true) ∧
      (∀ infile ∈ files,
        (statKind (processFiles order set now setNr files fileNr st fs).2.1
          (outfileOf set infile)).isSome = true ∨
        selectParser order set (fsReadFile fs infile) = none) := by
  induction files with
  | nil =>
    intro fileNr st fs hbases hin
    exact ⟨hbases, fun d _ => rfl, fun p hp => hp,
      fun infile h => absurd h (List.not_mem_nil infile)⟩
  | cons infile rest ih =>
    intro fileNr st fs hbases hin
    have hinf := hin infile (List.mem_cons_self infile rest)
    have hinrest := fun g hg => hin g (List.mem_cons_of_mem infile hg)
    unfold processFiles
    dsimp only
    rcases processFile_fs_spec order set now setNr fileNr infile st fs with
      ⟨hfs1, hskip⟩ | ⟨data, hfs1⟩
    · rw [hfs1]
      obtain ⟨c1, c2, c3, c4⟩ :=
        ih (fileNr + 1) (processFile order set now setNr fileNr infile st fs).1
          fs hbases hinrest
      refine ⟨c1, c2, c3, ?_⟩
      intro g hg
      rcases List.mem_cons.mp hg with hg | hg
      · rw [hg]
        rcases hskip with hsk | hsk
        · exact Or.inl (c3 _ hsk)
        · exact Or.inr hsk
      · exact c4 g hg
    · rw [hfs1]
      have hob := outfileBase_no_slash infile
      have hbases1 := fsWriteFile_bases fs set.outputDir (outfileBase infile)
        data now hbases hob
      obtain ⟨c1, c2, c3, c4⟩ :=
        ih (fileNr + 1) (processFile order set now setNr fileNr infile st fs).1
          (fsWriteFile fs set.outputDir (outfileBase infile) data now)
          hbases1 hinrest
      refine ⟨c1, ?_, ?_, ?_⟩
      · intro d hd
        rw [c2 d hd, fsWriteFile_filter_dir fs set.outputDir (outfileBase infile)
          data now d hd]
      · intro p hp
        exact c3 p (statKind_isSome_write fs set.outputDir (outfileBase infile)
          data now p hp)
      · intro g hg
        rcases List.mem_cons.mp hg with hg | hg
        · rw [hg]
          exact Or.inl (c3 _ (statKind_write_target fs set.outputDir
            (outfileBase infile) data now))
        · rcases c4 g hg with hc | hc
          · exact Or.inl hc
          · obtain ⟨b, hgb, hb⟩ := hinrest g hg
            rw [hgb, fsReadFile_write fs set.outputDir (outfileBase infile)
              data now set.inputDir b hio hb hob hbases] at hc
            rw [hgb]
            exact Or.inr hc

end HomebankCsv

namespace HomebankCsv

open GoStr GoPath GoNum

/-- The file list a set's processing step discovers on a given
filesystem (empty when `findFiles` fails). -/
def ffList (now : Int) (fs : FS) (set : BatchConvertSet) : List Str :=
  (findFiles fs set.inputDir set.fileGlobPattern
    (getTimeFromMaxAgeDays set.fileMaxAgeDays.toNat now)).toOption.getD []

/-- Forward analysis of a whole run: directories and slash-freeness are
preserved, directories that are no set's output directory keep their
contents, existing paths keep existing, and — the key fact for the
second run — every file the final filesystem's discovery yields for
some set either has its output present in the final filesystem or
fails parser selection against its content in the final filesystem. -/
theorem processSets_run1 (order : List SourceFormat) (now : Int) :
    ∀ (sets : List BatchConvertSet) (setNr : Nat) (st : BatchStatus) (fs : FS),
      (∀ set ∈ sets, fs.dirs.contains set.outputDir = true ∧
        checkValiditySet set = Except.ok ()) →
      (∀ s1 ∈ sets, ∀ s2 ∈ sets, s1.inputDir ≠ s2.outputDir) →
      (∀ f ∈ fs.files, '/' ∉ f.base) →
      ((processSets order now sets setNr st fs).fs.dirs = fs.dirs) ∧
      (∀ f ∈ (processSets order now sets setNr st fs).fs.files, '/' ∉ f.base) ∧
      (∀ d, (∀ s2 ∈ sets, d ≠ s2.outputDir) →
        (processSets order now sets setNr st fs).fs.files.filter
            (fun f => f.dir = d) =
          fs.files.filter (fun f => f.dir = d)) ∧
      (∀ p, (statKind fs p).isSome = true →
        (statKind (processSets order now sets setNr st fs).fs p).isSome = true) ∧
      (∀ set ∈ sets,
        ∀ infile ∈ ffList now (processSets order now sets setNr st fs).fs set,
        (statKind (processSets order now sets setNr st fs).fs
          (outfileOf set infile)).isSome = true ∨
        selectParser order set
          (fsReadFile (processSets order now sets setNr st fs).fs infile) = none) := by
  intro sets
  induction sets with
  | nil =>
    intro setNr st fs hv hdisj hbases
    exact ⟨rfl, hbases, fun d _ => rfl, fun p h => h,
      fun set h => absurd h (List.not_mem_nil set)⟩
  | cons set rest ih =>
    intro setNr st fs hv hdisj hbases
    have hvset := hv set (List.mem_cons_self set rest)
    have hstat : statKind fs set.outputDir = some true := by
      unfold statKind
      rw [if_pos hvset.1]
    obtain ⟨fileList, hff⟩ := findFiles_ok fs set.inputDir set.fileGlobPattern
      (getTimeFromMaxAgeDays set.fileMaxAgeDays.toNat now)
      (checkValiditySet_glob set hvset.2)
    have hio : set.inputDir ≠ set.outputDir :=
      hdisj set (List.mem_cons_self set rest) set (List.mem_cons_self set rest)
    have hin : ∀ infile ∈ fileList, ∃ b, infile = joinPath set.inputDir b ∧
        '/' ∉ b := by
      intro x hx
      obtain ⟨f, hfmem, hfdir, hxeq⟩ :=
        findFiles_mem fs set.inputDir set.fileGlobPattern _ fileList hff x hx
      exact ⟨f.base, hxeq, hbases f hfmem⟩
    unfold processSets
    rw [hstat, hff]
    dsimp only
    set st2 := modifyAt (st ++ [{ files := [], name := set.name }]) setNr
      (fun bss => { bss with files := fileList.map (fun infile =>
        { inputFile := infile, outputFile := [],
          status := ConversionStatus.notStartedYet, format := none }) }) with hst2
    obtain ⟨f1, f2, f3, f4⟩ := processFiles_run1 order set now setNr hio fileList
      0 st2 fs hbases hin
    have hdirsA := processFiles_dirs order set now setNr fileList 0 st2 fs
    have hvrest : ∀ s2 ∈ rest,
        (processFiles order set now setNr fileList 0 st2 fs).2.1.dirs.contains
          s2.outputDir = true ∧ checkValiditySet s2 = Except.ok () := by
      intro s2 hs2
      rw [hdirsA]
      exact hv s2 (List.mem_cons_of_mem set hs2)
    obtain ⟨g1, g2, g3, g4, g5⟩ := ih (setNr + 1)
      (processFiles order set now setNr fileList 0 st2 fs).1
      (processFiles order set now setNr fileList 0 st2 fs).2.1 hvrest
      (fun a ha b hb => hdisj a (List.mem_cons_of_mem set ha)
        b (List.mem_cons_of_mem set hb)) f1
    have hfilter_in :
        (processSets order now rest (setNr + 1)
          (processFiles order set now setNr fileList 0 st2 fs).1
          (processFiles order set now setNr fileList 0 st2 fs).2.1).fs.files.filter
            (fun f => f.dir = set.inputDir) =
          fs.files.filter (fun f => f.dir = set.inputDir) := by
      rw [g3 set.inputDir (fun s2 hs2 =>
          hdisj set (List.mem_cons_self set rest) s2 (List.mem_cons_of_mem set hs2)),
        f2 set.inputDir hio]
    refine ⟨?_, g2, ?_, ?_, ?_⟩
    · rw [g1, hdirsA]
    · intro d hd
      rw [g3 d (fun s2 hs2 => hd s2 (List.mem_cons_of_mem set hs2)),
        f2 d (hd set (List.mem_cons_self set rest))]
    · intro p hp
      exact g4 p (f3 p hp)
    · intro s2 hs2 infile hinf
      rcases List.mem_cons.mp hs2 with hs2 | hs2
      · subst hs2
        have hffP : ffList now
            (processSets order now rest (setNr + 1)
              (processFiles order s2 now setNr fileList 0 st2 fs).1
              (processFiles order s2 now setNr fileList 0 st2 fs).2.1).fs s2 =
            fileList := by
          unfold ffList
          rw [findFiles_congr fs _ s2.inputDir s2.fileGlobPattern _ hfilter_in, hff]
          rfl
        rw [hffP] at hinf
        rcases f4 infile hinf with hc | hc
        · exact Or.inl (g4 _ hc)
        · obtain ⟨b, hgb, hb⟩ := hin infile hinf
          refine Or.inr ?_
          rw [hgb, fsReadFile_joined _ s2.inputDir b hb g2, hfilter_in,
            ← fsReadFile_joined fs s2.inputDir b hb hbases, ← hgb]
          exact hc
      · exact g5 s2 hs2 infile hinf

end HomebankCsv

namespace HomebankCsv

open GoStr GoPath GoNum

/-- A file whose output already exists or whose parser selection fails
is skipped or marked as failed, with no filesystem change and no other
status touched. -/
theorem processFile_run2 (order : List SourceFormat) (set : BatchConvertSet)
    (now : Int) (setNr fileNr : Nat) (infile : Str) (st : BatchStatus) (fs : FS)
    (hsf : (statKind fs (outfileOf set infile)).isSome = true ∨
      selectParser order set (fsReadFile fs infile) = none)
    (hpos : (fileStatusAt st setNr fileNr).isSome = true) :
    (processFile order set now setNr fileNr infile st fs).2.1 = fs ∧
    (fileStatusAt (processFile order set now setNr fileNr infile st fs).1
        setNr fileNr = some ConversionStatus.skipped ∨
     fileStatusAt (processFile order set now setNr fileNr infile st fs).1
        setNr fileNr = some ConversionStatus.conversionError) ∧
    (∀ i j, ¬(i = setNr ∧ j = fileNr) →
      fileStatusAt (processFile order set now setNr fileNr infile st fs).1 i j =
        fileStatusAt st i j) ∧
    (∀ i j c,
      fileStatusAt (processFile order set now setNr fileNr infile st fs).1 i j
        = some c →
      fileStatusAt st i j = some c ∨ c = ConversionStatus.skipped ∨
        c = ConversionStatus.conversionError) := by
  obtain ⟨v, hv⟩ := Option.isSome_iff_exists.mp hpos
  unfold processFile
  dsimp only
  by_cases hskip : (statKind fs (outfileOf set infile)).isSome = true
  · rw [if_pos hskip]
    have hpoint : fileStatusAt (updateFileStatus
        (updateFileStatus st setNr fileNr
          (fun f => { f with outputFile := outfileOf set infile }))
        setNr fileNr (fun f => { f with status := ConversionStatus.skipped }))
        setNr fileNr = some ConversionStatus.skipped := by
      rw [fileStatusAt_update _ setNr fileNr _
          (fun _ => ConversionStatus.skipped) (fun f => rfl) setNr fileNr,
        if_pos ⟨rfl, rfl⟩,
        fileStatusAt_update_preserve st setNr fileNr (fun f => { f with outputFile := outfileOf set infile }) (fun f => rfl) setNr fileNr,
        hv]
      rfl
    have hother : ∀ i j, ¬(i = setNr ∧ j = fileNr) →
        fileStatusAt (updateFileStatus
          (updateFileStatus st setNr fileNr
            (fun f => { f with outputFile := outfileOf set infile }))
          setNr fileNr (fun f => { f with status := ConversionStatus.skipped }))
          i j = fileStatusAt st i j := by
      intro i j hij
      rw [fileStatusAt_update _ setNr fileNr _
          (fun _ => ConversionStatus.skipped) (fun f => rfl) i j,
        if_neg (fun hc => hij ⟨hc.1.symm, hc.2.symm⟩),
        fileStatusAt_update_preserve st setNr fileNr (fun f => { f with outputFile := outfileOf set infile }) (fun f => rfl) i j]
    refine ⟨rfl, Or.inl hpoint, hother, ?_⟩
    intro i j c hc
    by_cases hij : i = setNr ∧ j = fileNr
    · rw [hij.1, hij.2, hpoint] at hc
      exact Or.inr (Or.inl (Option.some_inj.mp hc).symm)
    · rw [hother i j hij] at hc
      exact Or.inl hc
  · have hsel : selectParser order set (fsReadFile fs infile) = none :=
      hsf.resolve_left hskip
    rw [if_neg hskip, hsel]
    dsimp only
    have hpoint : fileStatusAt (updateFileStatus (updateFileStatus
        (updateFileStatus st setNr fileNr
          (fun f => { f with outputFile := outfileOf set infile }))
        setNr fileNr (fun f => { f with status := ConversionStatus.conversionInProgress }))
        setNr fileNr (fun f => { f with status := ConversionStatus.conversionError }))
        setNr fileNr = some ConversionStatus.conversionError := by
      rw [fileStatusAt_update _ setNr fileNr _
          (fun _ => ConversionStatus.conversionError) (fun f => rfl) setNr fileNr,
        if_pos ⟨rfl, rfl⟩,
        fileStatusAt_update _ setNr fileNr _
          (fun _ => ConversionStatus.conversionInProgress) (fun f => rfl) setNr fileNr,
        if_pos ⟨rfl, rfl⟩,
        fileStatusAt_update_preserve st setNr fileNr (fun f => { f with outputFile := outfileOf set infile }) (fun f => rfl) setNr fileNr,
        hv]
      rfl
    have hother : ∀ i j, ¬(i = setNr ∧ j = fileNr) →
        fileStatusAt (updateFileStatus (updateFileStatus
          (updateFileStatus st setNr fileNr
            (fun f => { f with outputFile := outfileOf set infile }))
          setNr fileNr (fun f => { f with status := ConversionStatus.conversionInProgress }))
          setNr fileNr (fun f => { f with status := ConversionStatus.conversionError }))
          i j = fileStatusAt st i j := by
      intro i j hij
      rw [fileStatusAt_update _ setNr fileNr _
          (fun _ => ConversionStatus.conversionError) (fun f => rfl) i j,
        if_neg (fun hc => hij ⟨hc.1.symm, hc.2.symm⟩),
        fileStatusAt_update _ setNr fileNr _
          (fun _ => ConversionStatus.conversionInProgress) (fun f => rfl) i j,
        if_neg (fun hc => hij ⟨hc.1.symm, hc.2.symm⟩),
        fileStatusAt_update_preserve st setNr fileNr (fun f => { f with outputFile := outfileOf set infile }) (fun f => rfl) i j]
    refine ⟨rfl, Or.inr hpoint, hother, ?_⟩
    intro i j c hc
    by_cases hij : i = setNr ∧ j = fileNr
    · rw [hij.1, hij.2, hpoint] at hc
      exact Or.inr (Or.inr (Option.some_inj.mp hc).symm)
    · rw [hother i j hij] at hc
      exact Or.inl hc

end HomebankCsv

namespace HomebankCsv

open GoStr GoPath GoNum

/-- Run 2 over one set's file list: when every file's output already
exists or its parser selection fails, the filesystem is untouched,
every processed position ends Skipped or Error, other positions are
untouched, and any position's value is its old one or Skipped/Error. -/
theorem processFiles_run2 (order : List SourceFormat) (set : BatchConvertSet)
    (now : Int) (setNr : Nat) (files : List Str) :
    ∀ (fileNr : Nat) (st : BatchStatus) (fs : FS),
      (∀ f ∈ files, (statKind fs (outfileOf set f)).isSome = true ∨
        selectParser order set (fsReadFile fs f) = none) →
      (∀ j, j < files.length → (fileStatusAt st setNr (fileNr + j)).isSome = true) →
      (processFiles order set now setNr files fileNr st fs).2.1 = fs ∧
      (∀ i j c,
        fileStatusAt (processFiles order set now setNr files fileNr st fs).1 i j
          = some c →
        fileStatusAt st i j = some c ∨ c = ConversionStatus.skipped ∨
          c = ConversionStatus.conversionError) ∧
      (∀ j, j < files.length →
        fileStatusAt (processFiles order set now setNr files fileNr st fs).1
            setNr (fileNr + j) = some ConversionStatus.skipped ∨
        fileStatusAt (processFiles order set now setNr files fileNr st fs).1
            setNr (fileNr + j) = some ConversionStatus.conversionError) ∧
      (∀ i j, (i ≠ setNr ∨ j < fileNr) →
        fileStatusAt (processFiles order set now setNr files fileNr st fs).1 i j =
          fileStatusAt st i j) := by
  induction files with
  | nil =>
    intro fileNr st fs _ _
    exact ⟨rfl, fun i j c h => Or.inl h, fun j hj => absurd hj (by simp),
      fun i j _ => rfl⟩
  | cons f rest ih =>
    intro fileNr st fs hsf hlen
    have hpos0 : (fileStatusAt st setNr fileNr).isSome = true := by
      have := hlen 0 (by simp)
      rwa [Nat.add_zero] at this
    obtain ⟨pa, pb, pc, pd⟩ := processFile_run2 order set now setNr fileNr f st fs
      (hsf f (List.mem_cons_self f rest)) hpos0
    unfold processFiles
    dsimp only
    rw [pa]
    have hlen1 : ∀ j, j < rest.length →
        (fileStatusAt (processFile order set now setNr fileNr f st fs).1 setNr
          (fileNr + 1 + j)).isSome = true := by
      intro j hj
      rw [pc setNr (fileNr + 1 + j) (fun hc => by omega)]
      have := hlen (j + 1) (by simp; omega)
      have harith : fileNr + (j + 1) = fileNr + 1 + j := by omega
      rwa [harith] at this
    obtain ⟨a, b1, b2, c2⟩ := ih (fileNr + 1)
      (processFile order set now setNr fileNr f st fs).1 fs
      (fun g hg => hsf g (List.mem_cons_of_mem f hg)) hlen1
    refine ⟨a, ?_, ?_, ?_⟩
    · intro i j c hc
      rcases b1 i j c hc with hb | hb
      · exact pd i j c hb
      · exact Or.inr hb
    · intro j hj
      by_cases h1 : j = 0
      · subst h1
        rw [c2 setNr (fileNr + 0) (Or.inr (by omega)), Nat.add_zero]
        exact pb
      · obtain ⟨k, hk⟩ := Nat.exists_eq_succ_of_ne_zero h1
        subst hk
        have harith : fileNr + (k + 1) = fileNr + 1 + k := by omega
        rw [harith]
        exact b2 k (by simp at hj; omega)
    · intro i j hij
      have hij1 : i ≠ setNr ∨ j < fileNr + 1 := by
        rcases hij with h | h
        · exact Or.inl h
        · exact Or.inr (by omega)
      rw [c2 i j hij1]
      apply pc
      intro hc
      rcases hij with h | h
      · exact h hc.1
      · omega
end HomebankCsv

namespace HomebankCsv

open GoStr GoPath GoNum

/-- Run 2 over the sets: when for every set each discovered file has
its output present or fails parser selection, the run changes nothing
on disk, leaves earlier sets' statuses alone, and every file status it
produces is Skipped or Error. -/
theorem processSets_run2 (order : List SourceFormat) (now : Int) :
    ∀ (sets : List BatchConvertSet) (setNr : Nat) (st : BatchStatus) (fs : FS),
      (∀ set ∈ sets, fs.dirs.contains set.outputDir = true ∧
        checkValiditySet set = Except.ok ()) →
      (∀ set ∈ sets, ∀ f ∈ ffList now fs set,
        (statKind fs (outfileOf set f)).isSome = true ∨
        selectParser order set (fsReadFile fs f) = none) →
      st.length = setNr →
      (processSets order now sets setNr st fs).fs = fs ∧
      (∀ i j, i < setNr →
        fileStatusAt (processSets order now sets setNr st fs).status i j =
          fileStatusAt st i j) ∧
      (∀ i j c, setNr ≤ i →
        fileStatusAt (processSets order now sets setNr st fs).status i j = some c →
        c = ConversionStatus.skipped ∨ c = ConversionStatus.conversionError) := by
  intro sets
  induction sets with
  | nil =>
    intro setNr st fs _ _ hstlen
    refine ⟨rfl, fun i j _ => rfl, ?_⟩
    intro i j c hi hc
    exfalso
    unfold processSets fileStatusAt at hc
    dsimp only at hc
    rw [List.getElem?_eq_none (by omega)] at hc
    cases hc
  | cons set rest ih =>
    intro setNr st fs hv hsf hstlen
    have hvset := hv set (List.mem_cons_self set rest)
    have hstat : statKind fs set.outputDir = some true := by
      unfold statKind
      rw [if_pos hvset.1]
    obtain ⟨fileList, hff⟩ := findFiles_ok fs set.inputDir set.fileGlobPattern
      (getTimeFromMaxAgeDays set.fileMaxAgeDays.toNat now)
      (checkValiditySet_glob set hvset.2)
    have hffeq : ffList now fs set = fileList := by
      unfold ffList
      rw [hff]
      rfl
    unfold processSets
    rw [hstat, hff]
    dsimp only
    set st2 := modifyAt (st ++ [{ files := [], name := set.name }]) setNr
      (fun bss => { bss with files := fileList.map (fun infile =>
        { inputFile := infile, outputFile := [],
          status := ConversionStatus.notStartedYet, format := none }) }) with hst2
    have hdisc := fileStatusAt_discovery st set.name fileList setNr hstlen
    have hlen2 : ∀ j, j < fileList.length →
        (fileStatusAt st2 setNr (0 + j)).isSome = true := by
      intro j hj
      rw [Nat.zero_add, hdisc setNr j, if_pos rfl, if_pos hj]
      rfl
    have hsfset : ∀ f ∈ fileList,
        (statKind fs (outfileOf set f)).isSome = true ∨
        selectParser order set (fsReadFile fs f) = none := by
      rw [← hffeq]
      exact hsf set (List.mem_cons_self set rest)
    obtain ⟨a, b1, b2, c2⟩ := processFiles_run2 order set now setNr fileList 0
      st2 fs hsfset hlen2
    rw [a]
    have hstlen2 : (processFiles order set now setNr fileList 0 st2 fs).1.length
        = setNr + 1 := by
      rw [processFiles_length, hst2, modifyAt_length, List.length_append, hstlen]
      rfl
    obtain ⟨A, D, B⟩ := ih (setNr + 1)
      (processFiles order set now setNr fileList 0 st2 fs).1 fs
      (fun s2 hs2 => hv s2 (List.mem_cons_of_mem set hs2))
      (fun s2 hs2 => hsf s2 (List.mem_cons_of_mem set hs2)) hstlen2
    refine ⟨A, ?_, ?_⟩
    · intro i j hi
      rw [D i j (by omega), c2 i j (Or.inl (by omega)), hdisc i j,
        if_neg (by omega)]
    · intro i j c hi hc
      by_cases hie : setNr + 1 ≤ i
      · exact B i j c hie hc
      · have hieq : i = setNr := by omega
        subst hieq
        rw [D i j (by omega)] at hc
        by_cases hjl : j < fileList.length
        · have hb2 := b2 j hjl
          rw [Nat.zero_add] at hb2
          rcases hb2 with hb | hb
          · rw [hb] at hc
            exact Or.inl (Option.some_inj.mp hc).symm
          · rw [hb] at hc
            exact Or.inr (Option.some_inj.mp hc).symm
        · rcases b1 i j c hc with hb | hb
          · rw [hdisc i j, if_pos rfl, if_neg hjl] at hb
            cases hb
          · exact hb

end HomebankCsv

namespace HomebankCsv

open GoStr GoPath GoNum

/-- C3: corrected idempotence of batch conversion.  For a valid
configuration whose output directories exist, whose input directories
are distinct from every output directory, and whose file base names
are slash-free, a second `BatchConvert` run over the filesystem left
by the first changes nothing on disk, and every file status it reports
is Skipped or Error: files whose output was produced (or already
existed) are skipped by the output-existence check, while files that
failed in the first run are re-attempted — not skipped — and fail
again.  (The original claim that every discovered file ends the second
run Skipped is refuted by the counterexample.) -/
theorem batchConvert_second_run (order : List SourceFormat)
    (s : BatchConvertSettings) (now : Int) (env : Env) (fs : FS)
    (nsets : List BatchConvertSet)
    (hn : ¬ s.sets.length = 0)
    (hns : normalizeSets env s.sets = Except.ok nsets)
    (hcv : checkValiditySets nsets = Except.ok ())
    (hdirs : ∀ set ∈ nsets, fs.dirs.contains set.outputDir = true)
    (hdisj : ∀ s1 ∈ nsets, ∀ s2 ∈ nsets, s1.inputDir ≠ s2.outputDir)
    (hbases : ∀ f ∈ fs.files, '/' ∉ f.base) :
    (batchConvert order s now env (batchConvert order s now env fs).2.1).2.1 =
      (batchConvert order s now env fs).2.1 ∧
    (∀ st2, (batchConvert order s now env (batchConvert order s now env fs).2.1).1
        = some st2 →
      ∀ i j c, fileStatusAt st2 i j = some c →
        c = ConversionStatus.skipped ∨ c = ConversionStatus.conversionError) := by
  have hvm : ∀ set ∈ nsets, fs.dirs.contains set.outputDir = true ∧
      checkValiditySet set = Except.ok () := fun set hset =>
    ⟨hdirs set hset, checkValiditySetsLoop_mem nsets [] [] hcv set hset⟩
  obtain ⟨r1, r2, r3, r4, r5⟩ :=
    processSets_run1 order now nsets 0 [] fs hvm hdisj hbases
  have h1 : (batchConvert order s now env fs).2.1 =
      (processSets order now nsets 0 [] fs).fs := by
    unfold batchConvert
    rw [if_neg hn, hns]
    dsimp only
    rw [hcv]
  have hvm2 : ∀ set ∈ nsets,
      (processSets order now nsets 0 [] fs).fs.dirs.contains set.outputDir = true ∧
      checkValiditySet set = Except.ok () := by
    intro set hset
    rw [r1]
    exact hvm set hset
  obtain ⟨A, D, B⟩ := processSets_run2 order now nsets 0 []
    (processSets order now nsets 0 [] fs).fs hvm2 r5 rfl
  have h2fs : (batchConvert order s now env
      (processSets order now nsets 0 [] fs).fs).2.1 =
      (processSets order now nsets 0 []
        (processSets order now nsets 0 [] fs).fs).fs := by
    unfold batchConvert
    rw [if_neg hn, hns]
    dsimp only
    rw [hcv]
  have h2st : (batchConvert order s now env
      (processSets order now nsets 0 [] fs).fs).1 =
      some (processSets order now nsets 0 []
        (processSets order now nsets 0 [] fs).fs).status := by
    unfold batchConvert
    rw [if_neg hn, hns]
    dsimp only
    rw [hcv]
  refine ⟨?_, ?_⟩
  · rw [h1, h2fs, A]
  · intro st2 hst2 i j c hc
    rw [h1, h2st, Option.some_inj] at hst2
    rw [← hst2] at hc
    exact B i j c (Nat.zero_le i) hc

/-- A concrete one-set batch configuration with one unparseable input
file, for the second-run counterexample. -/
def c3Settings : BatchConvertSettings :=
  ⟨[⟨"s1".toList, "/in".toList, "/out".toList, some Volksbank, [], 0⟩]⟩

/-- A concrete filesystem: `/in` holds only the unparseable `a.csv`. -/
def c3Fs : FS :=
  { dirs := ["/in".toList, "/out".toList],
    files := [⟨"/in".toList, "a.csv".toList, .text ["garbage".toList], 5⟩] }

/-- C3 counterexample: a file that failed conversion in the first run
produced no output file, so the second run re-attempts it (it is not
Skipped) and it ends the second run with status Error, refuting the
claim that every discovered file ends the second run Skipped. -/
theorem batchConvert_second_run_not_skipped :
    fileStatusAt ((batchConvert [] c3Settings 10 ⟨"/h".toList, [], []⟩
        (batchConvert [] c3Settings 10 ⟨"/h".toList, [], []⟩ c3Fs).2.1).1.getD [])
      0 0 = some ConversionStatus.conversionError := by
  decide

/-- Witness for C3 at the concrete scenario: the second run leaves the
filesystem of the first run unchanged, and the status Error observed
at the only position is within the allowed Skipped-or-Error set. -/
theorem batchConvert_second_run_witness :
    (batchConvert [] c3Settings 10 ⟨"/h".toList, [], []⟩
        (batchConvert [] c3Settings 10 ⟨"/h".toList, [], []⟩ c3Fs).2.1).2.1 =
      (batchConvert [] c3Settings 10 ⟨"/h".toList, [], []⟩ c3Fs).2.1 ∧
    (ConversionStatus.conversionError = ConversionStatus.skipped ∨
     ConversionStatus.conversionError = ConversionStatus.conversionError) :=
  ⟨(batchConvert_second_run [] c3Settings 10 ⟨"/h".toList, [], []⟩ c3Fs
      c3Settings.sets (by decide) rfl rfl (by decide) (by decide) (by decide)).1,
   (batchConvert_second_run [] c3Settings 10 ⟨"/h".toList, [], []⟩ c3Fs
      c3Settings.sets (by decide) rfl rfl (by decide) (by decide) (by decide)).2
     _ rfl 0 0 ConversionStatus.conversionError (by decide)⟩

end HomebankCsv
